import Mathlib

/-!
Verification of the stibium semantic core: a shallow embedding of the
position/range primitives (`stibium/types.py`), the symbol type lattice,
the typed AST (`stibium/ant_types.py`), the symbol table
(`stibium/symbols.py`), the tree builder's leaf-pointer pass
(`stibium/tree_builder.py`) and the analyzer (`stibium/analysis.py`),
together with theorems about them.
-/

set_option maxHeartbeats 1000000

namespace Stibium

/-! ## Position and range primitives (types.py) -/

/-- `SrcPosition`: a position in text, 1-based line/column. -/
structure SrcPosition where
  line : Nat
  column : Nat
deriving DecidableEq, Repr

/-- `SrcPosition.__le__`: lexicographic comparison, from the source. -/
def SrcPosition.le (a b : SrcPosition) : Bool :=
  if a.line < b.line then true
  else if a.line = b.line then a.column ≤ b.column
  else false

/-- `SrcPosition.__lt__`: strict lexicographic comparison, from the source. -/
def SrcPosition.lt (a b : SrcPosition) : Bool :=
  if a.line < b.line then true
  else if a.line = b.line then a.column < b.column
  else false

/-- `SrcPosition.__ge__`, from the source. -/
def SrcPosition.ge (a b : SrcPosition) : Bool :=
  if a.line > b.line then true
  else if a.line = b.line then a.column ≥ b.column
  else false

/-- `SrcRange`: a half-open range `[start, stop)` in text. The source calls
the second field `end`, which is a reserved word here. -/
structure SrcRange where
  start : SrcPosition
  stop : SrcPosition
deriving DecidableEq, Repr

/-! ## The symbol type lattice (types.py, `SymbolType`) -/

/-- `SymbolType` enumeration, from the source. -/
inductive SymbolType where
  | Unknown
  | Variable
  | Submodel
  | Model
  | Function
  | Unit
  | Parameter
  | Species
  | Compartment
  | Reaction
  | Event
  | Constraint
deriving DecidableEq, Repr, Fintype

/-- `SymbolType.derives_from`, transcribed from the source. -/
def SymbolType.derives_from (self other : SymbolType) : Bool :=
  if self = other then true
  else if other = SymbolType.Unknown then true
  else
    let derives_from_param :=
      self = SymbolType.Species ∨ self = SymbolType.Compartment ∨
      self = SymbolType.Reaction ∨ self = SymbolType.Constraint
    if other = SymbolType.Variable then
      decide (derives_from_param ∨ self = SymbolType.Parameter)
    else if other = SymbolType.Parameter then
      decide derives_from_param
    else false

/-- `Variability` enumeration, from the source. -/
inductive Variability where
  | UNKNOWN
  | CONSTANT
  | VARIABLE
deriving DecidableEq, Repr

/-! ## Typed AST (ant_types.py)

The Python AST is a class hierarchy over two shapes, `LeafNode` and
`TrunkNode`; the analyzer dispatches on the exact class of a node
(`type(node) == Name`, etc.).  We embed it as one inductive with a kind tag
per shape.  A `None` child slot is embedded as the `missing` constructor.
The mutable `prev`/`next` leaf pointers are embedded as stored fields
holding the `id` of the linked leaf (Python object identity becomes the
`id` field); the pointer-threading algorithm itself is modelled separately
as a state transformer (see `set_leaf_pointers`). -/

/-- The leaf classes of ant_types.py. -/
inductive LeafKind where
  | Name
  | Number
  | Operator
  | Keyword
  | StringLiteral
  | Newline
  | ErrorToken
  | VarModifier
  | TypeModifier
deriving DecidableEq, Repr

/-- The trunk classes of ant_types.py. -/
inductive TrunkKind where
  | FileNode
  | ErrorNode
  | Model
  | Function
  | SimpleStmt
  | Reaction
  | ReactionName
  | SpeciesList
  | Species
  | Assignment
  | Declaration
  | DeclModifiers
  | DeclItem
  | DeclAssignment
  | NameMaybeIn
  | VarName
  | InComp
  | Annotation
  | Sum
  | Product
  | Power
  | Atom
deriving DecidableEq, Repr

/-- Payload of a `LeafNode`: its range and text, plus its identity and the
`prev`/`next` pointers (as leaf identities). -/
structure LeafData where
  id : Nat
  range : SrcRange
  text : String
  prev : Option Nat := none
  next : Option Nat := none
deriving DecidableEq, Repr

/-- A node of the typed AST.  `missing` embeds a `None` child slot. -/
inductive Tree where
  | missing
  | leaf (kind : LeafKind) (data : LeafData)
  | trunk (kind : TrunkKind) (range : SrcRange) (children : List Tree)

/-- The range of a node (`node.range`); `missing` has no range in the
source (accessing it would be a crash), we give it a default. -/
def Tree.rangeD : Tree → SrcRange
  | .missing => ⟨⟨0, 0⟩, ⟨0, 0⟩⟩
  | .leaf _ d => d.range
  | .trunk _ r _ => r

/-! ## Scopes, qualified names and symbols (symbols.py) -/

/-- `BaseScope` / `ModelScope(name)` / `FunctionScope(name)`, with equality
by kind and name as in the source. -/
inductive Scope where
  | base
  | model (name : String)
  | function (name : String)
deriving DecidableEq, Repr

/-- `QName`: a scope paired with a `Name` token (we keep the token's
`LeafData`, which carries its text and range). -/
structure QName where
  scope : Scope
  name : LeafData
deriving DecidableEq, Repr

/-- `Symbol` (`VarSymbol`): the merged record for one `(scope, name)`. -/
structure Symbol where
  name : String
  type : SymbolType
  type_name : LeafData
  decl_name : Option LeafData := none
  decl_node : Option Tree := none
  value_node : Option Tree := none
  annotations : List Tree := []

/-! ## Issues (types.py) -/

/-- The `Issue` subclasses, with the payload each constructor stores. -/
inductive Issue where
  | UnexpectedToken (range : SrcRange) (text : String)
  | UnexpectedEOF (range : SrcRange)
  | UnexpectedNewline (range : SrcRange)
  | IncompatibleType (old_type : SymbolType) (old_range : SrcRange)
      (new_type : SymbolType) (new_range : SrcRange)
  | ObscuredDeclaration (old_range new_range : SrcRange) (name : String)
  | ObscuredValue (old_range new_range : SrcRange) (name : String)
deriving DecidableEq, Repr

/-- `UnexpectedNewlineIssue.__init__` computes its range from the leaf
start position. -/
def unexpectedNewlineIssue (pos : SrcPosition) : Issue :=
  Issue.UnexpectedNewline ⟨pos, ⟨pos.line + 1, 1⟩⟩

/-- `issue.range`: the range an issue was constructed with
(`IncompatibleType` stores `new_range` there, the obscured issues store
`old_range`). -/
def Issue.range : Issue → SrcRange
  | .UnexpectedToken r _ => r
  | .UnexpectedEOF r => r
  | .UnexpectedNewline r => r
  | .IncompatibleType _ _ _ r => r
  | .ObscuredDeclaration r _ _ => r
  | .ObscuredValue r _ _ => r

/-! ## The symbol table (symbols.py, `SymbolTable`) -/

/-- The per-scope dictionaries `_table` are embedded as one association
list keyed by `(scope, name)`; updating an existing key replaces the entry
in place, inserting a fresh key appends. -/
structure SymbolTable where
  table : List ((Scope × String) × Symbol) := []
  issues : List Issue := []
  qnames : List QName := []

/-- Dictionary lookup in `_table[scope]`. -/
def lookupTable : List ((Scope × String) × Symbol) → Scope → String →
    Option Symbol
  | [], _, _ => none
  | e :: rest, scope, name =>
      if e.1 = (scope, name) then some e.2 else lookupTable rest scope name

/-- Dictionary store `leaf_table[name] = sym`: replace the entry in place
if the key is present, append otherwise. -/
def storeTable : List ((Scope × String) × Symbol) → Scope → String →
    Symbol → List ((Scope × String) × Symbol)
  | [], scope, name, sym => [((scope, name), sym)]
  | e :: rest, scope, name, sym =>
      if e.1 = (scope, name) then (e.1, sym) :: rest
      else e :: storeTable rest scope name sym

/-- The tail of `SymbolTable.insert` after the type-merging step: override
the declaration if `decl_node` is given, then record the value node,
emitting `ObscuredValue` when a previous value node is overwritten.
Returns the updated symbol and issue list. -/
def applyDeclValue (sym : Symbol) (issues : List Issue) (qname : QName)
    (decl_node value_node : Option Tree) : Symbol × List Issue :=
  let sym := match decl_node with
    | some d => { sym with decl_node := some d, decl_name := some qname.name }
    | none => sym
  match value_node with
  | some v =>
      let issues := match sym.value_node with
        | some old =>
            issues ++ [Issue.ObscuredValue old.rangeD v.rangeD qname.name.text]
        | none => issues
      ({ sym with value_node := some v }, issues)
  | none => (sym, issues)

/-- `SymbolTable.insert`, transcribed from the source. -/
def SymbolTable.insert (st : SymbolTable) (qname : QName) (typ : SymbolType)
    (decl_node : Option Tree := none) (value_node : Option Tree := none) :
    SymbolTable :=
  let qnames := st.qnames ++ [qname]
  let name := qname.name.text
  match lookupTable st.table qname.scope name with
  | none =>
      let sym : Symbol := { name := name, type := typ, type_name := qname.name }
      let (sym, issues) := applyDeclValue sym st.issues qname decl_node value_node
      { table := storeTable st.table qname.scope name sym,
        issues := issues, qnames := qnames }
  | some sym =>
      let old_type := sym.type
      if typ.derives_from old_type then
        -- new type is valid and narrower
        let sym := { sym with type := typ, type_name := qname.name }
        let (sym, issues) := applyDeclValue sym st.issues qname decl_node value_node
        { table := storeTable st.table qname.scope name sym,
          issues := issues, qnames := qnames }
      else if old_type.derives_from typ then
        -- legal, but useless information
        let (sym, issues) := applyDeclValue sym st.issues qname decl_node value_node
        { table := storeTable st.table qname.scope name sym,
          issues := issues, qnames := qnames }
      else
        { table := st.table,
          issues := st.issues ++
            [Issue.IncompatibleType old_type sym.type_name.range typ qname.name.range],
          qnames := qnames }

/-- The symbol table's annotation-insert method of symbols.py,
transcribed (the source's method name ends in a word reserved here). -/
def SymbolTable.insert_annot (st : SymbolTable) (qname : QName)
    (node : Tree) : SymbolTable :=
  let name := qname.name.text
  match lookupTable st.table qname.scope name with
  | none =>
      let sym : Symbol :=
        { name := name, type := SymbolType.Unknown, type_name := qname.name,
          annotations := [node] }
      { st with table := storeTable st.table qname.scope name sym }
  | some sym =>
      let sym := { sym with annotations := sym.annotations ++ [node] }
      { st with table := storeTable st.table qname.scope name sym }

/-- `SymbolTable.get_all_names`: the names present in any scope (as a list;
the source returns a set, only membership is ever used). -/
def SymbolTable.get_all_names (st : SymbolTable) : List String :=
  st.table.map (fun e => e.1.2)

/-- The names present in one scope's table. -/
def SymbolTable.scope_names (st : SymbolTable) (scope : Scope) : List String :=
  (st.table.filter (fun e => e.1.1 = scope)).map (fun e => e.1.2)

/-! ## Tree traversals (ant_types.py) -/

mutual

/-- `TreeNode.scan_leaves` / `_scan_leaves`: the leaves of a subtree in
left-to-right order (`None` children are skipped by the source loop;
`missing` yields nothing). -/
def Tree.scan_leaves : Tree → List (LeafKind × LeafData)
  | .missing => []
  | .leaf k d => [(k, d)]
  | .trunk _ _ ch => scanLeavesChildren ch

def scanLeavesChildren : List Tree → List (LeafKind × LeafData)
  | [] => []
  | c :: rest => c.scan_leaves ++ scanLeavesChildren rest

end

mutual

/-- `TrunkNode.descendants`: the node itself followed by all its
non-`None` descendants, in preorder. -/
def Tree.descendants : Tree → List Tree
  | .missing => []
  | .leaf k d => [.leaf k d]
  | .trunk k r ch => .trunk k r ch :: descendantsChildren ch

def descendantsChildren : List Tree → List Tree
  | [] => []
  | c :: rest => c.descendants ++ descendantsChildren rest

end

mutual

/-- `TrunkNode.last_leaf`, transcribed: scan the children right to left,
return the first leaf found (descending into trunks). -/
def Tree.last_leaf : Tree → Option LeafData
  | .missing => none
  | .leaf _ d => some d
  | .trunk _ _ ch => lastLeafChildren ch

def lastLeafChildren : List Tree → Option LeafData
  | [] => none
  | c :: rest =>
      match lastLeafChildren rest with
      | some d => some d
      | none => c.last_leaf

end

/-! ## The syntax-issue pass (analysis.py, `_record_syntax_issues`) -/

/-- The issue computed for one direct child of the root in
`_record_syntax_issues`, before the per-line deduplication: a
whitespace-only `ErrorToken` is an unexpected newline, any other
`ErrorToken` an unexpected token, and an `ErrorNode` whose last leaf has
no `next` leaf an unexpected EOF. -/
def issueForNode (node : Tree) : Option Issue :=
  match node with
  | .leaf LeafKind.ErrorToken d =>
      if d.text.data.all Char.isWhitespace then
        some (unexpectedNewlineIssue d.range.start)
      else some (Issue.UnexpectedToken d.range d.text)
  | .trunk TrunkKind.ErrorNode _ ch =>
      match lastLeafChildren ch with
      | some d => if d.next = none then some (Issue.UnexpectedEOF d.range) else none
      | none => none
  | _ => none

/-- The loop of `_record_syntax_issues`: `issues` accumulates the recorded
issues, `lines` the set of already-flagged lines. -/
def recordSyntaxAux : List Tree → List Issue → List Nat → List Issue
  | [], issues, _ => issues
  | node :: rest, issues, lines =>
      match issueForNode node with
      | some issue =>
          if issue.range.start.line ∈ lines then
            recordSyntaxAux rest issues lines
          else
            recordSyntaxAux rest (issues ++ [issue])
              (issue.range.start.line :: lines)
      | none => recordSyntaxAux rest issues lines

/-- `AntTreeAnalyzer._record_syntax_issues`, over the root's direct
children. -/
def recordSyntaxIssues (children : List Tree) : List Issue :=
  recordSyntaxAux children [] []

/-- The specification's description of the deduplication — keep an issue
only if no earlier issue starts on the same line — as a recursive filter
over the undeduplicated issue list. -/
def keepFirstPerLine : List Issue → List Nat → List Issue
  | [], _ => []
  | i :: rest, lines =>
      if i.range.start.line ∈ lines then keepFirstPerLine rest lines
      else i :: keepFirstPerLine rest (i.range.start.line :: lines)

/-! ## Position lookup (analysis.py, `get_qname_at_position`) -/

/-- `within_range(pos, node)`: `pos >= node.range.start and
pos < node.range.end`. -/
def within_range (pos : SrcPosition) (node : Tree) : Bool :=
  pos.ge node.rangeD.start && pos.lt node.rangeD.stop

/-- `Model.get_name` is `assert False, 'Not implemented'` in ant_types.py:
every call fails. -/
def modelGetName (_node : Tree) : Except String LeafData :=
  Except.error "Model.get_name: Not implemented"

/-- `Function.get_name` is `assert False, 'Not implemented'` in
ant_types.py: every call fails. -/
def functionGetName (_node : Tree) : Except String LeafData :=
  Except.error "Function.get_name: Not implemented"

mutual

/-- The descent loop of `get_qname_at_position`, with the `model`/`func`
trackers.  While the current node is not a leaf: a `Model` node first
asserts the tracker is unset and then calls `Model.get_name` (which
asserts `False`), likewise for `Function`; otherwise descend into the
first child whose range contains the position, with `None` children
skipped, returning "not found" when no child contains it.  At a leaf,
assert that not both trackers are set and pair the scope they select with
the leaf. -/
def gqapNode : Tree → SrcPosition → Option LeafData → Option LeafData →
    Except String (Option (Scope × LeafKind × LeafData))
  | .missing, _, _, _ => Except.error "NoneType has no children"
  | .leaf k d, _, model, func =>
      if model.isSome && func.isSome then
        Except.error "assert not (model is not None and func is not None)"
      else
        Except.ok (some (match model, func with
          | some m, _ => Scope.model m.text
          | none, some f => Scope.function f.text
          | none, none => Scope.base, k, d))
  | .trunk kind r ch, pos, model, func =>
      if kind = TrunkKind.Model then
        if model.isSome then Except.error "assert model is None"
        else
          match modelGetName (.trunk kind r ch) with
          | Except.error e => Except.error e
          | Except.ok m => gqapChildren ch pos (some m) func
      else if kind = TrunkKind.Function then
        if func.isSome then Except.error "assert func is None"
        else
          match functionGetName (.trunk kind r ch) with
          | Except.error e => Except.error e
          | Except.ok f => gqapChildren ch pos model (some f)
      else gqapChildren ch pos model func

/-- The `for child in node.children` scan: skip `None` children, descend
into the first child whose range contains the position, return "not
found" if none does. -/
def gqapChildren : List Tree → SrcPosition → Option LeafData →
    Option LeafData → Except String (Option (Scope × LeafKind × LeafData))
  | [], _, _, _ => Except.ok none
  | c :: rest, pos, model, func =>
      match c with
      | .missing => gqapChildren rest pos model func
      | c' =>
          if within_range pos c' then gqapNode c' pos model func
          else gqapChildren rest pos model func

end

/-- `get_qname_at_position(root, pos)`: the result is the scope and the
leaf reached (the source wraps them in a `QName`), `none` when not found,
or a fault. -/
def get_qname_at_position (root : Tree) (pos : SrcPosition) :
    Except String (Option (Scope × LeafKind × LeafData)) :=
  gqapNode root pos none none

/-! ## The analyzer (analysis.py, `AntTreeAnalyzer`)

The handlers run in an error monad: a malformed tree makes the Python
attribute/index/key accesses raise, which aborts the analysis; `Except`
models that. -/

/-- `node.children[i]`: `IndexError` when out of range, attribute error on
a leaf or `None` node. -/
def Tree.child (t : Tree) (i : Nat) : Except String Tree :=
  match t with
  | .trunk _ _ ch =>
      match ch[i]? with
      | some c => Except.ok c
      | none => Except.error "IndexError"
  | _ => Except.error "AttributeError: children"

/-- Reading the token payload of a node that must be a leaf (`None` and
trunk nodes fault when `.text` is read, and `insert` asserts the name is
not `None`). -/
def Tree.asLeaf (t : Tree) : Except String LeafData :=
  match t with
  | .leaf _ d => Except.ok d
  | _ => Except.error "AttributeError: text"

/-- `children[::2]` (the `Species` entries of a `SpeciesList`). -/
def evens : List Tree → List Tree
  | [] => []
  | [c] => [c]
  | c :: _ :: rest => c :: evens rest

/-- `children[1::2]` (the `DeclItem` entries of a `Declaration`). -/
def odds : List Tree → List Tree
  | [] => []
  | [_] => []
  | _ :: c :: rest => c :: odds rest

/-- `x.get_maybein().get_var_name().get_name()`: the accessor path
`children[0].children[0].children[1]` shared by `ReactionName`,
`Assignment` and `DeclItem`. -/
def getMaybeinName (t : Tree) : Except String Tree := do
  let nmi ← t.child 0
  let vn ← nmi.child 0
  vn.child 1

/-- `AntTreeAnalyzer.handle_arith_expr`: a bare `Name` leaf is one
`Parameter` occurrence; a subtree contributes every `Name` among its
leaves; anything else (numbers, `None`) contributes nothing. -/
def handle_arith_expr (scope : Scope) (st : SymbolTable) (expr : Tree) :
    SymbolTable :=
  match expr with
  | .trunk k r ch =>
      ((Tree.trunk k r ch).scan_leaves).foldl
        (fun acc l =>
          if l.1 = LeafKind.Name then
            acc.insert ⟨scope, l.2⟩ SymbolType.Parameter none none
          else acc) st
  | .leaf LeafKind.Name d =>
      st.insert ⟨scope, d⟩ SymbolType.Parameter none none
  | _ => st

/-- `Reaction.get_reactants` / `get_products`: `None` list gives no
species, otherwise `children[::2]` of the list. -/
def speciesListAll (t : Tree) : Except String (List Tree) :=
  match t with
  | .missing => Except.ok []
  | .trunk _ _ ch => Except.ok (evens ch)
  | .leaf _ _ => Except.error "AttributeError: get_all_species"

/-- Insert each species of a reactant/product list: the symbol is keyed by
`species.get_name()` (= `children[2]`). -/
def insertSpecies (scope : Scope) :
    List Tree → SymbolTable → Except String SymbolTable
  | [], st => Except.ok st
  | sp :: rest, st => do
      let nTree ← sp.child 2
      let nd ← nTree.asLeaf
      insertSpecies scope rest
        (st.insert ⟨scope, nd⟩ SymbolType.Species none none)

/-- The `if name is not None: insert(...)` step of `handle_reaction`:
`reaction.get_name()` is `None` when `children[0]` is, otherwise the
`ReactionName`'s name token, inserted as a `Reaction` with the reaction as
its declaration node. -/
def reactionNameInsert (scope : Scope) (st : SymbolTable)
    (reaction c0 : Tree) : Except String SymbolTable :=
  match c0 with
  | Tree.missing => Except.ok st
  | rn => do
      let nameTree ← getMaybeinName rn
      let nd ← nameTree.asLeaf
      Except.ok (st.insert ⟨scope, nd⟩ SymbolType.Reaction
        (some reaction) none)

/-- `AntTreeAnalyzer.handle_reaction`. -/
def handle_reaction (scope : Scope) (st : SymbolTable) (reaction : Tree) :
    Except String SymbolTable := do
  let c0 ← reaction.child 0
  let st1 ← reactionNameInsert scope st reaction c0
  let rlist ← reaction.child 1
  let plist ← reaction.child 3
  let reactants ← speciesListAll rlist
  let products ← speciesListAll plist
  let st2 ← insertSpecies scope reactants st1
  let st3 ← insertSpecies scope products st2
  let rate ← reaction.child 5
  Except.ok (handle_arith_expr scope st3 rate)

/-- `AntTreeAnalyzer.handle_assignment`. -/
def handle_assignment (scope : Scope) (st : SymbolTable)
    (assignment : Tree) : Except String SymbolTable := do
  let nameTree ← getMaybeinName assignment
  let nd ← nameTree.asLeaf
  let st1 := st.insert ⟨scope, nd⟩ SymbolType.Parameter none
    (some assignment)
  let value ← assignment.child 2
  Except.ok (handle_arith_expr scope st1 value)

/-- `DeclModifiers.get_variab`. -/
def declModifiersGetVariab (m : Tree) : Except String Variability := do
  let vm ← m.child 0
  match vm with
  | Tree.missing => Except.ok Variability.UNKNOWN
  | Tree.leaf _ d =>
      Except.ok (if d.text = "const" then Variability.CONSTANT
        else Variability.VARIABLE)
  | Tree.trunk _ _ _ => Except.error "AttributeError: text"

/-- `DeclModifiers.get_type`: `None` modifier means `Unknown`, otherwise a
dictionary lookup on the modifier text (`KeyError` on anything else). -/
def declModifiersGetType (m : Tree) : Except String SymbolType := do
  let tm ← m.child 1
  match tm with
  | Tree.missing => Except.ok SymbolType.Unknown
  | Tree.leaf _ d =>
      if d.text = "species" then Except.ok SymbolType.Species
      else if d.text = "compartment" then Except.ok SymbolType.Compartment
      else if d.text = "formula" then Except.ok SymbolType.Parameter
      else Except.error "KeyError"
  | Tree.trunk _ _ _ => Except.error "AttributeError: text"

/-- `DeclItem.get_value`: the `DeclAssignment`'s `children[1]`, or `None`
(`missing`) when the item carries no assignment. -/
def declItemGetValue (item : Tree) : Except String Tree := do
  let da ← item.child 1
  match da with
  | Tree.missing => Except.ok Tree.missing
  | node => node.child 1

/-- The per-item loop of `handle_declaration`: insert the declared symbol
(with the whole `Declaration` as `decl_node` and the item as `value_node`
when a value is present), then scan the value expression. -/
def insertDeclItems (scope : Scope) (declaration : Tree)
    (stype : SymbolType) :
    List Tree → SymbolTable → Except String SymbolTable
  | [], st => Except.ok st
  | item :: rest, st => do
      let nameTree ← getMaybeinName item
      let nd ← nameTree.asLeaf
      let value ← declItemGetValue item
      match value with
      | Tree.missing =>
          insertDeclItems scope declaration stype rest
            (st.insert ⟨scope, nd⟩ stype (some declaration) none)
      | v =>
          insertDeclItems scope declaration stype rest
            (handle_arith_expr scope
              (st.insert ⟨scope, nd⟩ stype (some declaration) (some item)) v)

/-- `AntTreeAnalyzer.handle_declaration`. -/
def handle_declaration (scope : Scope) (st : SymbolTable)
    (declaration : Tree) : Except String SymbolTable :=
  match declaration with
  | Tree.trunk k r ch => do
      let modifiers ← Tree.child (Tree.trunk k r ch) 0
      let _variab ← declModifiersGetVariab modifiers
      let stype ← declModifiersGetType modifiers
      insertDeclItems scope (Tree.trunk k r ch) stype (odds ch) st
  | _ => Except.error "AttributeError: children"

/-- The analyzer's annotation handler of analysis.py: the annotated name
becomes a
`Parameter` occurrence, then the annotation node is recorded. -/
def handle_annot (scope : Scope) (st : SymbolTable)
    (ann : Tree) : Except String SymbolTable := do
  let vn ← ann.child 0
  let nameTree ← vn.child 1
  let nd ← nameTree.asLeaf
  let st1 := st.insert ⟨scope, nd⟩ SymbolType.Parameter none none
  Except.ok (SymbolTable.insert_annot st1 ⟨scope, nd⟩ ann)

/-- `AntTreeAnalyzer.handle_child_incomp`: scan the statement's
descendants for `InComp` nodes and register each compartment name
(`children[1].children[1]`) as a `Compartment`. -/
def insertIncomps (scope : Scope) :
    List Tree → SymbolTable → Except String SymbolTable
  | [], st => Except.ok st
  | Tree.trunk TrunkKind.InComp r ch :: rest, st => do
      let comp ← Tree.child (Tree.trunk TrunkKind.InComp r ch) 1
      let nameTree ← comp.child 1
      let nd ← nameTree.asLeaf
      insertIncomps scope rest
        (st.insert ⟨scope, nd⟩ SymbolType.Compartment none none)
  | _ :: rest, st => insertIncomps scope rest st

def handle_child_incomp (scope : Scope) (st : SymbolTable) (node : Tree) :
    Except String SymbolTable :=
  insertIncomps scope node.descendants st

/-- The statement dispatch of `AntTreeAnalyzer.__init__` (a dictionary
keyed by the statement's class name; any other class is a `KeyError`). -/
def handle_stmt (scope : Scope) (st : SymbolTable) :
    Tree → Except String SymbolTable
  | Tree.trunk TrunkKind.Reaction r ch =>
      handle_reaction scope st (Tree.trunk TrunkKind.Reaction r ch)
  | Tree.trunk TrunkKind.Assignment r ch =>
      handle_assignment scope st (Tree.trunk TrunkKind.Assignment r ch)
  | Tree.trunk TrunkKind.Declaration r ch =>
      handle_declaration scope st (Tree.trunk TrunkKind.Declaration r ch)
  | Tree.trunk TrunkKind.Annotation r ch =>
      handle_annot scope st (Tree.trunk TrunkKind.Annotation r ch)
  | _ => Except.error "KeyError: statement class"

/-- The statement loop of `AntTreeAnalyzer.__init__` over the root's
direct children: skip error tokens/nodes and everything that is not a
`SimpleStmt`; for a `SimpleStmt`, take its statement (skip empty ones),
dispatch, then run the compartment scan. -/
def processChildren (scope : Scope) :
    List Tree → SymbolTable → Except String SymbolTable
  | [], st => Except.ok st
  | child :: rest, st =>
      match child with
      | Tree.leaf LeafKind.ErrorToken _ => processChildren scope rest st
      | Tree.trunk TrunkKind.ErrorNode _ _ => processChildren scope rest st
      | Tree.trunk TrunkKind.SimpleStmt r ch => do
          let stmt ← Tree.child (Tree.trunk TrunkKind.SimpleStmt r ch) 0
          match stmt with
          | Tree.missing => processChildren scope rest st
          | s => do
              let st1 ← handle_stmt scope st s
              let st2 ← handle_child_incomp scope st1 s
              processChildren scope rest st2
      | _ => processChildren scope rest st

/-- The analyzer's outputs: the populated symbol table (whose `issues` are
the semantic issues) and the recorded syntax issues. -/
structure AnalysisResult where
  table : SymbolTable
  syntax_issues : List Issue

/-- `AntTreeAnalyzer.__init__`: one pass over the root's direct children
with `BaseScope`, then the syntax-issue pass. -/
def analyze (root : Tree) : Except String AnalysisResult :=
  match root with
  | Tree.trunk _ _ ch => do
      let st ← processChildren Scope.base ch ⟨[], [], []⟩
      Except.ok ⟨st, recordSyntaxIssues ch⟩
  | _ => Except.error "AttributeError: children"

/-! ## Leaf-pointer threading (tree_builder.py, `set_leaf_pointers`)

The source mutates the `prev`/`next` fields of leaf objects, including
leaves outside the subtree currently being visited (`last.next = root`).
We embed that mutable store as a pair of maps from leaf identities. -/

/-- The `prev`/`next` fields of all leaves, keyed by leaf identity. -/
structure LinkState where
  prev : Nat → Option Nat
  next : Nat → Option Nat

/-- The dataclass defaults: every pointer starts as `None`. -/
def LinkState.init : LinkState :=
  ⟨fun _ => none, fun _ => none⟩

/-- The leaf case of `set_leaf_pointers`: `root.prev = last; if last:
last.next = root`. -/
def linkLeaf (s : LinkState) (last : Option Nat) (k : Nat) : LinkState :=
  let s1 : LinkState := ⟨Function.update s.prev k last, s.next⟩
  match last with
  | some j => ⟨s1.prev, Function.update s1.next j (some k)⟩
  | none => s1

mutual

/-- `set_leaf_pointers(root, last)` as a state transformer on the pointer
store: returns the new "last leaf seen" (`None` for a `None` root) and the
updated store. -/
def set_leaf_pointers : Tree → Option Nat → LinkState →
    Option Nat × LinkState
  | .missing, _, s => (none, s)
  | .leaf _ d, last, s => (some d.id, linkLeaf s last d.id)
  | .trunk _ _ ch, last, s => setLeafPointersList ch last s

/-- The loop `for child in root.children: last = set_leaf_pointers(child,
last) or last`, returning the final `last`. -/
def setLeafPointersList : List Tree → Option Nat → LinkState →
    Option Nat × LinkState
  | [], last, s => (last, s)
  | c :: rest, last, s =>
      let r := set_leaf_pointers c last s
      setLeafPointersList rest (r.1.orElse (fun _ => last)) r.2

end

mutual

/-- The identities of the leaves of a subtree, in left-to-right source
order. -/
def Tree.leafIds : Tree → List Nat
  | .missing => []
  | .leaf _ d => [d.id]
  | .trunk _ _ ch => leafIdsList ch

def leafIdsList : List Tree → List Nat
  | [] => []
  | c :: rest => c.leafIds ++ leafIdsList rest

end

/-- The last of `ids`, or `l0` when `ids` is empty (the "last leaf seen"
after threading `ids` starting from `l0`). -/
def lastOr : List Nat → Option Nat → Option Nat
  | [], l0 => l0
  | k :: rest, _ => lastOr rest (some k)

/-- Thread a flat list of leaves in order, starting from previous leaf
`l0`: the abstract view of what `set_leaf_pointers` does to the store. -/
def applyChain : LinkState → Option Nat → List Nat → LinkState
  | s, _, [] => s
  | s, l0, k :: rest => applyChain (linkLeaf s l0 k) (some k) rest

/-- Follow a pointer map for at most `fuel` steps, collecting the leaves
visited; stops at a `None` pointer. -/
def follow (f : Nat → Option Nat) : Nat → Option Nat → List Nat
  | 0, _ => []
  | _ + 1, none => []
  | fuel + 1, some k => k :: follow f fuel (f k)

/-- Concrete instance for `set_leaf_pointers_chain`: a small tree with
four leaves, one nested under a statement with a `None` slot. -/
def exChainTree : Tree :=
  Tree.trunk TrunkKind.FileNode ⟨⟨1, 1⟩, ⟨1, 9⟩⟩
    [Tree.leaf LeafKind.Name ⟨1, ⟨⟨1, 1⟩, ⟨1, 2⟩⟩, "a", none, none⟩,
     Tree.trunk TrunkKind.SimpleStmt ⟨⟨1, 3⟩, ⟨1, 7⟩⟩
       [Tree.missing,
        Tree.leaf LeafKind.Name ⟨2, ⟨⟨1, 3⟩, ⟨1, 4⟩⟩, "b", none, none⟩,
        Tree.leaf LeafKind.Operator ⟨3, ⟨⟨1, 5⟩, ⟨1, 6⟩⟩, ";", none, none⟩],
     Tree.leaf LeafKind.Name ⟨4, ⟨⟨1, 7⟩, ⟨1, 8⟩⟩, "c", none, none⟩]

/-- The declaration item `A = 5` of `const species A = 5;`. -/
def exDeclItem : Tree :=
  Tree.trunk TrunkKind.DeclItem ⟨⟨1, 15⟩, ⟨1, 20⟩⟩
    [Tree.trunk TrunkKind.NameMaybeIn ⟨⟨1, 15⟩, ⟨1, 16⟩⟩
      [Tree.trunk TrunkKind.VarName ⟨⟨1, 15⟩, ⟨1, 16⟩⟩
        [Tree.missing,
         Tree.leaf LeafKind.Name ⟨21, ⟨⟨1, 15⟩, ⟨1, 16⟩⟩, "A", none, none⟩],
       Tree.missing],
     Tree.trunk TrunkKind.DeclAssignment ⟨⟨1, 17⟩, ⟨1, 20⟩⟩
      [Tree.leaf LeafKind.Operator ⟨22, ⟨⟨1, 17⟩, ⟨1, 18⟩⟩, "=", none, none⟩,
       Tree.leaf LeafKind.Number ⟨23, ⟨⟨1, 19⟩, ⟨1, 20⟩⟩, "5", none, none⟩]]

/-- The declaration `const species A = 5`. -/
def exDeclaration : Tree :=
  Tree.trunk TrunkKind.Declaration ⟨⟨1, 1⟩, ⟨1, 20⟩⟩
    [Tree.trunk TrunkKind.DeclModifiers ⟨⟨1, 1⟩, ⟨1, 14⟩⟩
      [Tree.leaf LeafKind.VarModifier
        ⟨24, ⟨⟨1, 1⟩, ⟨1, 6⟩⟩, "const", none, none⟩,
       Tree.leaf LeafKind.TypeModifier
        ⟨25, ⟨⟨1, 7⟩, ⟨1, 14⟩⟩, "species", none, none⟩],
     exDeclItem]

/-- The assignment `A = 10`. -/
def exAssignment : Tree :=
  Tree.trunk TrunkKind.Assignment ⟨⟨1, 22⟩, ⟨1, 28⟩⟩
    [Tree.trunk TrunkKind.NameMaybeIn ⟨⟨1, 22⟩, ⟨1, 23⟩⟩
      [Tree.trunk TrunkKind.VarName ⟨⟨1, 22⟩, ⟨1, 23⟩⟩
        [Tree.missing,
         Tree.leaf LeafKind.Name ⟨26, ⟨⟨1, 22⟩, ⟨1, 23⟩⟩, "A", none, none⟩],
       Tree.missing],
     Tree.leaf LeafKind.Operator ⟨27, ⟨⟨1, 24⟩, ⟨1, 25⟩⟩, "=", none, none⟩,
     Tree.leaf LeafKind.Number ⟨28, ⟨⟨1, 26⟩, ⟨1, 28⟩⟩, "10", none, none⟩]

/-- The root for `const species A = 5; A = 10;`. -/
def exObscuredRoot : Tree :=
  Tree.trunk TrunkKind.FileNode ⟨⟨1, 1⟩, ⟨1, 29⟩⟩
    [Tree.trunk TrunkKind.SimpleStmt ⟨⟨1, 1⟩, ⟨1, 21⟩⟩
      [exDeclaration,
       Tree.leaf LeafKind.Operator ⟨29, ⟨⟨1, 20⟩, ⟨1, 21⟩⟩, ";", none, none⟩],
     Tree.trunk TrunkKind.SimpleStmt ⟨⟨1, 22⟩, ⟨1, 29⟩⟩
      [exAssignment,
       Tree.leaf LeafKind.Operator ⟨30, ⟨⟨1, 28⟩, ⟨1, 29⟩⟩, ";", none, none⟩]]

/-- Every table entry and every logged qname of `st` lives in scope
`sc`. -/
def ScopeOnly (st : SymbolTable) (sc : Scope) : Prop :=
  (∀ e ∈ st.table, e.1.1 = sc) ∧ (∀ q ∈ st.qnames, q.scope = sc)

/-! ## Claim C9: unique name generation

`get_unique_name` probes `prefix0`, `prefix1`, … in a `while True` loop.
The candidate for index `i` is `pre ++ Nat.repr i` (the `{}{}`.format of
the source).  We embed the loop with fuel `names.length + 1` and prove the
fuel suffices: decimal rendering is injective, so among `names.length + 1`
distinct candidates at least one is unused. -/

/-- Decimal digits of a natural number, most significant first: the
reference form of `Nat.toDigits 10`. -/
def decDigits (n : Nat) : List Char :=
  if _h : n < 10 then [Nat.digitChar n]
  else decDigits (n / 10) ++ [Nat.digitChar (n % 10)]
decreasing_by exact Nat.div_lt_self (by omega) (by omega)

/-- Numeric value of a decimal digit character. -/
def digitVal (c : Char) : Nat := c.toNat - '0'.toNat

/-- Value of a most-significant-first digit string. -/
def decValue (l : List Char) : Nat :=
  l.foldl (fun acc c => acc * 10 + digitVal c) 0

/-- The `while True` probe loop of `get_unique_name`, with fuel (the
theorem `get_unique_name_first_free` shows `names.length + 1` fuel never
runs out). -/
def probeNames (names : List String) (pre : String) :
    Nat → Nat → Option String
  | _, 0 => none
  | i, fuel + 1 =>
      let name := pre ++ Nat.repr i
      if name ∈ names then probeNames names pre (i + 1) fuel
      else some name

/-- `SymbolTable.get_unique_name`: probe over all names when no scope is
given, over the scope's own table otherwise. -/
def SymbolTable.get_unique_name (st : SymbolTable) (pre : String)
    (scope : Option Scope) : Option String :=
  match scope with
  | none => probeNames st.get_all_names pre 0 (st.get_all_names.length + 1)
  | some sc =>
      probeNames (st.scope_names sc) pre 0 ((st.scope_names sc).length + 1)

/-! ## Claim C5: position lookup -/

/-- The `Name` leaf `S1` of the reaction `S1 -> S2; k1*S1`. -/
def exS1 : LeafData := ⟨10, ⟨⟨1, 10⟩, ⟨1, 12⟩⟩, "S1", none, none⟩

/-- The reaction `S1 -> S2; k1*S1` as a typed AST subtree (children:
optional name, reactants, `->`, products, `;`, rate law, optional
compartment). -/
def exReaction : Tree :=
  Tree.trunk TrunkKind.Reaction ⟨⟨1, 10⟩, ⟨1, 25⟩⟩
    [Tree.missing,
     Tree.trunk TrunkKind.SpeciesList ⟨⟨1, 10⟩, ⟨1, 12⟩⟩
       [Tree.trunk TrunkKind.Species ⟨⟨1, 10⟩, ⟨1, 12⟩⟩
         [Tree.missing, Tree.missing, Tree.leaf LeafKind.Name exS1]],
     Tree.leaf LeafKind.Operator ⟨11, ⟨⟨1, 13⟩, ⟨1, 15⟩⟩, "->", none, none⟩,
     Tree.trunk TrunkKind.SpeciesList ⟨⟨1, 16⟩, ⟨1, 18⟩⟩
       [Tree.trunk TrunkKind.Species ⟨⟨1, 16⟩, ⟨1, 18⟩⟩
         [Tree.missing, Tree.missing,
          Tree.leaf LeafKind.Name ⟨12, ⟨⟨1, 16⟩, ⟨1, 18⟩⟩, "S2", none, none⟩]],
     Tree.leaf LeafKind.Operator ⟨13, ⟨⟨1, 18⟩, ⟨1, 19⟩⟩, ";", none, none⟩,
     Tree.trunk TrunkKind.Product ⟨⟨1, 20⟩, ⟨1, 25⟩⟩
       [Tree.leaf LeafKind.Name ⟨14, ⟨⟨1, 20⟩, ⟨1, 22⟩⟩, "k1", none, none⟩,
        Tree.leaf LeafKind.Operator ⟨15, ⟨⟨1, 22⟩, ⟨1, 23⟩⟩, "*", none, none⟩,
        Tree.leaf LeafKind.Name ⟨16, ⟨⟨1, 23⟩, ⟨1, 25⟩⟩, "S1", none, none⟩],
     Tree.missing]

/-- A root for `model m; S1 -> S2; k1*S1; end`: the model subtree wraps
the model name and the reaction. -/
def exModelRoot : Tree :=
  Tree.trunk TrunkKind.FileNode ⟨⟨1, 1⟩, ⟨1, 30⟩⟩
    [Tree.trunk TrunkKind.Model ⟨⟨1, 1⟩, ⟨1, 30⟩⟩
      [Tree.leaf LeafKind.Keyword ⟨1, ⟨⟨1, 1⟩, ⟨1, 6⟩⟩, "model", none, none⟩,
       Tree.leaf LeafKind.Name ⟨2, ⟨⟨1, 7⟩, ⟨1, 8⟩⟩, "m", none, none⟩,
       Tree.leaf LeafKind.Operator ⟨3, ⟨⟨1, 8⟩, ⟨1, 9⟩⟩, ";", none, none⟩,
       exReaction,
       Tree.leaf LeafKind.Keyword ⟨4, ⟨⟨1, 26⟩, ⟨1, 29⟩⟩, "end", none, none⟩]]

/-- The same reaction at file level, with no model around it. -/
def exBaseRoot : Tree :=
  Tree.trunk TrunkKind.FileNode ⟨⟨1, 1⟩, ⟨1, 50⟩⟩
    [Tree.trunk TrunkKind.SimpleStmt ⟨⟨1, 10⟩, ⟨1, 26⟩⟩
      [exReaction,
       Tree.leaf LeafKind.Operator ⟨17, ⟨⟨1, 25⟩, ⟨1, 26⟩⟩, ";", none, none⟩]]

/-! ## Theorems -/

theorem lastOr_append (xs ys : List Nat) (l0 : Option Nat) :
    lastOr (xs ++ ys) l0 = lastOr ys (lastOr xs l0) := by
  induction xs generalizing l0 with
  | nil => rfl
  | cons x xs ih => simp [lastOr, ih]

theorem lastOr_none (ids : List Nat) (l0 : Option Nat)
    (h : lastOr ids l0 = none) : l0 = none ∧ ids = [] := by
  cases ids with
  | nil => exact ⟨h, rfl⟩
  | cons k rest =>
      exfalso
      induction rest generalizing k with
      | nil => simp [lastOr] at h
      | cons k' rest' ih => exact ih k' h

theorem lastOr_orElse (ids : List Nat) (l0 : Option Nat) :
    ((lastOr ids l0).orElse fun _ => l0) = lastOr ids l0 := by
  cases h : lastOr ids l0 with
  | none => rw [(lastOr_none ids l0 h).1]; rfl
  | some k => rfl

theorem applyChain_append (s : LinkState) (l0 : Option Nat)
    (xs ys : List Nat) :
    applyChain s l0 (xs ++ ys) =
      applyChain (applyChain s l0 xs) (lastOr xs l0) ys := by
  induction xs generalizing s l0 with
  | nil => rfl
  | cons x xs ih => simp [applyChain, lastOr, ih]

mutual

/-- `set_leaf_pointers` threads exactly the leaves of the subtree, in
order. -/
theorem set_leaf_pointers_eq (t : Tree) (last : Option Nat)
    (s : LinkState) :
    (set_leaf_pointers t last s).2 = applyChain s last t.leafIds ∧
    ((set_leaf_pointers t last s).1.orElse fun _ => last) =
      lastOr t.leafIds last := by
  cases t with
  | missing => exact ⟨rfl, rfl⟩
  | leaf k d => exact ⟨rfl, rfl⟩
  | trunk kind r ch =>
      have h := setLeafPointersList_eq ch last s
      refine ⟨?_, ?_⟩
      · rw [set_leaf_pointers, h, Tree.leafIds]
      · rw [set_leaf_pointers, h, Tree.leafIds]
        exact lastOr_orElse _ _

theorem setLeafPointersList_eq (cs : List Tree) (last : Option Nat)
    (s : LinkState) :
    setLeafPointersList cs last s =
      (lastOr (leafIdsList cs) last, applyChain s last (leafIdsList cs)) := by
  cases cs with
  | nil => rfl
  | cons c rest =>
      have hc := set_leaf_pointers_eq c last s
      rw [setLeafPointersList, hc.1, hc.2,
        setLeafPointersList_eq rest (lastOr c.leafIds last)
          (applyChain s last c.leafIds)]
      rw [leafIdsList, lastOr_append, applyChain_append]

end

theorem linkLeaf_prev (s : LinkState) (l0 : Option Nat) (k : Nat) :
    (linkLeaf s l0 k).prev = Function.update s.prev k l0 := by
  cases l0 <;> rfl

theorem linkLeaf_next_none (s : LinkState) (k : Nat) :
    (linkLeaf s none k).next = s.next := rfl

theorem linkLeaf_next_some (s : LinkState) (j k : Nat) :
    (linkLeaf s (some j) k).next = Function.update s.next j (some k) := rfl

theorem mem_of_mem_dropLast {k : Nat} :
    ∀ l : List Nat, k ∈ l.dropLast → k ∈ l := by
  intro l
  induction l with
  | nil => intro h; simp at h
  | cons a rest ih =>
      cases rest with
      | nil => intro h; simp [List.dropLast] at h
      | cons b bs =>
          intro h
          simp only [List.dropLast, List.mem_cons] at h
          rcases h with h | h
          · exact h ▸ List.mem_cons_self a _
          · exact List.mem_cons_of_mem a (ih h)

theorem mem_of_getLast?_eq {k : Nat} :
    ∀ l : List Nat, l.getLast? = some k → k ∈ l := by
  intro l
  induction l with
  | nil => intro h; simp at h
  | cons a rest ih =>
      cases rest with
      | nil =>
          intro h
          simp only [List.getLast?_singleton, Option.some.injEq] at h
          exact h ▸ List.mem_cons_self a _
      | cons b bs =>
          intro h
          rw [List.getLast?_cons_cons] at h
          exact List.mem_cons_of_mem a (ih h)

theorem not_mem_dropLast_of_nodup {k : Nat} :
    ∀ l : List Nat, l.Nodup → l.getLast? = some k → k ∉ l.dropLast := by
  intro l
  induction l with
  | nil => intro _ _; simp
  | cons a rest ih =>
      intro hnd hk
      rcases List.nodup_cons.mp hnd with ⟨ha, hrest⟩
      cases rest with
      | nil => simp [List.dropLast]
      | cons b bs =>
          rw [List.getLast?_cons_cons] at hk
          simp only [List.dropLast, List.mem_cons, not_or]
          constructor
          · intro hka
            exact ha (hka ▸ mem_of_getLast?_eq _ hk)
          · exact ih hrest hk

theorem applyChain_prev_not_mem :
    ∀ (ids : List Nat) (s : LinkState) (l0 : Option Nat) (k : Nat),
    k ∉ ids → (applyChain s l0 ids).prev k = s.prev k := by
  intro ids
  induction ids with
  | nil => intro s l0 k _; rfl
  | cons a rest ih =>
      intro s l0 k hk
      simp only [List.mem_cons, not_or] at hk
      rw [applyChain, ih _ _ _ hk.2, linkLeaf_prev,
        Function.update_noteq hk.1]

theorem applyChain_next_not_mem :
    ∀ (ids : List Nat) (s : LinkState) (l0 : Option Nat) (k : Nat),
    l0 ≠ some k → k ∉ ids.dropLast →
    (applyChain s l0 ids).next k = s.next k := by
  intro ids
  induction ids with
  | nil => intro s l0 k _ _; rfl
  | cons a rest ih =>
      intro s l0 k hl0 hk
      have hstep : (linkLeaf s l0 a).next k = s.next k := by
        cases l0 with
        | none => rfl
        | some j =>
            rw [linkLeaf_next_some, Function.update_noteq]
            intro hkj
            exact hl0 (by rw [hkj])
      cases rest with
      | nil => rw [applyChain, applyChain, hstep]
      | cons b bs =>
          simp only [List.dropLast, List.mem_cons, not_or] at hk
          rw [applyChain, ih _ (some a) k
            (fun h => hk.1 (Option.some.inj h).symm) hk.2, hstep]

theorem applyChain_next_start (a : Nat) (rest : List Nat) (s : LinkState)
    (j : Nat) (hj : j ∉ a :: rest) :
    (applyChain s (some j) (a :: rest)).next j = some a := by
  simp only [List.mem_cons, not_or] at hj
  rw [applyChain, applyChain_next_not_mem rest _ (some a) j
    (fun h => hj.1 (Option.some.inj h).symm)
    (fun hmem => hj.2 (mem_of_mem_dropLast rest hmem))]
  rw [linkLeaf_next_some, Function.update_same]

theorem applyChain_prev_head :
    ∀ (ids : List Nat) (s : LinkState) (l0 : Option Nat), ids.Nodup →
    ∀ a : Nat, ids.head? = some a → (applyChain s l0 ids).prev a = l0 := by
  intro ids s l0 hnd a ha
  cases ids with
  | nil => simp at ha
  | cons a' rest =>
      simp only [List.head?_cons, Option.some.injEq] at ha
      subst ha
      rcases List.nodup_cons.mp hnd with ⟨hmem, _⟩
      rw [applyChain, applyChain_prev_not_mem rest _ _ _ hmem,
        linkLeaf_prev, Function.update_same]

theorem applyChain_prev_get :
    ∀ (ids : List Nat), ids.Nodup →
    ∀ (s : LinkState) (l0 : Option Nat) (i : Nat)
      (h1 : i + 1 < ids.length) (h0 : i < ids.length),
    (applyChain s l0 ids).prev (ids.get ⟨i + 1, h1⟩) =
      some (ids.get ⟨i, h0⟩) := by
  intro ids
  induction ids with
  | nil => intro _ s l0 i h1 h0; simp at h1
  | cons a rest ih =>
      intro hnd s l0 i h1 h0
      rcases List.nodup_cons.mp hnd with ⟨hmem, hrest⟩
      cases i with
      | zero =>
          cases rest with
          | nil => simp at h1
          | cons b bs =>
              rw [applyChain]
              exact applyChain_prev_head (b :: bs) _ (some a) hrest b rfl
      | succ i' =>
          have h1' : i' + 1 < rest.length := by
            simpa [Nat.succ_lt_succ_iff] using h1
          have h0' : i' < rest.length := by
            simpa [Nat.succ_lt_succ_iff] using h0
          rw [applyChain]
          exact ih hrest _ (some a) i' h1' h0'

theorem applyChain_next_get :
    ∀ (ids : List Nat), ids.Nodup →
    ∀ (s : LinkState) (l0 : Option Nat), (∀ j, l0 = some j → j ∉ ids) →
    ∀ (i : Nat) (h1 : i + 1 < ids.length) (h0 : i < ids.length),
    (applyChain s l0 ids).next (ids.get ⟨i, h0⟩) =
      some (ids.get ⟨i + 1, h1⟩) := by
  intro ids
  induction ids with
  | nil => intro _ s l0 _ i h1 h0; simp at h1
  | cons a rest ih =>
      intro hnd s l0 hl0 i h1 h0
      rcases List.nodup_cons.mp hnd with ⟨hmem, hrest⟩
      cases i with
      | zero =>
          cases rest with
          | nil => simp at h1
          | cons b bs =>
              rw [applyChain]
              exact applyChain_next_start b bs _ a hmem
      | succ i' =>
          have h1' : i' + 1 < rest.length := by
            simpa [Nat.succ_lt_succ_iff] using h1
          have h0' : i' < rest.length := by
            simpa [Nat.succ_lt_succ_iff] using h0
          rw [applyChain]
          refine ih hrest _ (some a) ?_ i' h1' h0'
          intro j hj
          rw [Option.some.injEq] at hj
          exact hj ▸ hmem

theorem applyChain_next_last :
    ∀ (ids : List Nat) (s : LinkState) (l0 : Option Nat) (k : Nat),
    ids.Nodup → l0 ≠ some k → ids.getLast? = some k →
    (applyChain s l0 ids).next k = s.next k := by
  intro ids s l0 k hnd hl0 hk
  exact applyChain_next_not_mem ids s l0 k hl0
    (not_mem_dropLast_of_nodup ids hnd hk)

theorem follow_eq (f : Nat → Option Nat) :
    ∀ ids : List Nat,
    (∀ (i : Nat) (h1 : i + 1 < ids.length) (h0 : i < ids.length),
      f (ids.get ⟨i, h0⟩) = some (ids.get ⟨i + 1, h1⟩)) →
    (∀ k, ids.getLast? = some k → f k = none) →
    follow f (ids.length + 1) ids.head? = ids := by
  intro ids
  induction ids with
  | nil => intro _ _; rfl
  | cons a rest ih =>
      intro hadj hlast
      cases rest with
      | nil =>
          have hfa : f a = none := hlast a rfl
          show a :: follow f 1 (f a) = [a]
          rw [hfa]
          rfl
      | cons b bs =>
          have hfa : f a = some b := by
            have := hadj 0 (by simp) (by simp)
            simpa using this
          have hadj' : ∀ (i : Nat) (h1 : i + 1 < (b :: bs).length)
              (h0 : i < (b :: bs).length),
              f ((b :: bs).get ⟨i, h0⟩) = some ((b :: bs).get ⟨i + 1, h1⟩) := by
            intro i h1 h0
            have := hadj (i + 1) (by simpa using Nat.succ_lt_succ h1)
              (by simpa using Nat.succ_lt_succ h0)
            simpa using this
          have hlast' : ∀ k, (b :: bs).getLast? = some k → f k = none :=
            fun k hk => hlast k (by rw [List.getLast?_cons_cons]; exact hk)
          have ihr := ih hadj' hlast'
          show a :: follow f ((b :: bs).length + 1) (f a) = a :: b :: bs
          rw [hfa]
          exact congrArg (a :: ·) ihr

/-! ## Claim C8: the leaf chain after the build -/

/-- C8: after `set_leaf_pointers` runs on a built tree (from the initial
all-`None` pointer store), the leaf chain is complete and consistent:
following `next` from the first leaf visits every leaf exactly once in
left-to-right source order and terminates at a leaf with no `next`
(one spare step of fuel shows termination); following `prev` from the
last leaf yields the same sequence reversed; and `next`/`prev` are
inverses on every adjacent pair.  The hypothesis that leaf identities are
distinct is the embedding of Python object identity: distinct leaf
objects. -/
theorem set_leaf_pointers_chain (t : Tree) (hnd : t.leafIds.Nodup) :
    (follow ((set_leaf_pointers t none LinkState.init).2).next
        (t.leafIds.length + 1) t.leafIds.head? = t.leafIds) ∧
    (follow ((set_leaf_pointers t none LinkState.init).2).prev
        (t.leafIds.length + 1) t.leafIds.getLast? = t.leafIds.reverse) ∧
    (∀ (i : Nat) (h1 : i + 1 < t.leafIds.length)
        (h0 : i < t.leafIds.length),
      ((set_leaf_pointers t none LinkState.init).2).next
          (t.leafIds.get ⟨i, h0⟩) = some (t.leafIds.get ⟨i + 1, h1⟩) ∧
      ((set_leaf_pointers t none LinkState.init).2).prev
          (t.leafIds.get ⟨i + 1, h1⟩) = some (t.leafIds.get ⟨i, h0⟩)) := by
  have hs : (set_leaf_pointers t none LinkState.init).2 =
      applyChain LinkState.init none t.leafIds :=
    (set_leaf_pointers_eq t none LinkState.init).1
  rw [hs]
  have hnext : ∀ (i : Nat) (h1 : i + 1 < t.leafIds.length)
      (h0 : i < t.leafIds.length),
      (applyChain LinkState.init none t.leafIds).next
        (t.leafIds.get ⟨i, h0⟩) = some (t.leafIds.get ⟨i + 1, h1⟩) :=
    fun i h1 h0 => applyChain_next_get t.leafIds hnd LinkState.init none
      (fun j hj => absurd hj (by simp)) i h1 h0
  have hprev : ∀ (i : Nat) (h1 : i + 1 < t.leafIds.length)
      (h0 : i < t.leafIds.length),
      (applyChain LinkState.init none t.leafIds).prev
        (t.leafIds.get ⟨i + 1, h1⟩) = some (t.leafIds.get ⟨i, h0⟩) :=
    fun i h1 h0 => applyChain_prev_get t.leafIds hnd LinkState.init none
      i h1 h0
  refine ⟨?_, ?_, fun i h1 h0 => ⟨hnext i h1 h0, hprev i h1 h0⟩⟩
  · refine follow_eq _ t.leafIds hnext ?_
    intro k hk
    rw [applyChain_next_last t.leafIds LinkState.init none k hnd
      (by simp) hk]
    rfl
  · have hlen : t.leafIds.reverse.length = t.leafIds.length :=
      List.length_reverse _
    have hrev := follow_eq (applyChain LinkState.init none t.leafIds).prev
      t.leafIds.reverse ?_ ?_
    · rw [hlen, List.head?_reverse] at hrev
      exact hrev
    · intro i h1 h0
      have hi1 : i + 1 < t.leafIds.length := by rw [← hlen]; exact h1
      have e0 : t.leafIds.reverse.get ⟨i, h0⟩ =
          t.leafIds.get ⟨t.leafIds.length - 1 - i, by omega⟩ :=
        List.get_reverse' t.leafIds ⟨i, h0⟩ (by omega)
      have e1 : t.leafIds.reverse.get ⟨i + 1, h1⟩ =
          t.leafIds.get ⟨t.leafIds.length - 1 - (i + 1), by omega⟩ :=
        List.get_reverse' t.leafIds ⟨i + 1, h1⟩ (by omega)
      rw [e0, e1]
      have ej0 : (⟨t.leafIds.length - 1 - i, by omega⟩ :
          Fin t.leafIds.length) =
          ⟨(t.leafIds.length - 2 - i) + 1, by omega⟩ := by
        apply Fin.ext
        show t.leafIds.length - 1 - i = (t.leafIds.length - 2 - i) + 1
        omega
      have ej1 : (⟨t.leafIds.length - 1 - (i + 1), by omega⟩ :
          Fin t.leafIds.length) =
          ⟨t.leafIds.length - 2 - i, by omega⟩ := by
        apply Fin.ext
        show t.leafIds.length - 1 - (i + 1) = t.leafIds.length - 2 - i
        omega
      rw [ej0, ej1]
      exact hprev (t.leafIds.length - 2 - i) (by omega) (by omega)
    · intro k hk
      rw [List.getLast?_reverse] at hk
      rw [applyChain_prev_head t.leafIds LinkState.init none hnd k hk]

theorem set_leaf_pointers_chain_witness :
    exChainTree.leafIds.Nodup ∧
    follow ((set_leaf_pointers exChainTree none LinkState.init).2).next
        (exChainTree.leafIds.length + 1) exChainTree.leafIds.head? =
      exChainTree.leafIds :=
  ⟨by decide, (set_leaf_pointers_chain exChainTree (by decide)).1⟩

/-! ## Claim C2 -/

/-- C2: `SymbolType.derives_from` is reflexive; for every pair `(a, b)`,
`derives_from a b` and `derives_from b a` both hold exactly when `a = b`;
and `Unknown` is the top element of the lattice. -/
theorem derives_from_partial_order :
    (∀ a : SymbolType, a.derives_from a) ∧
    (∀ a b : SymbolType, (a.derives_from b ∧ b.derives_from a) ↔ a = b) ∧
    (∀ a : SymbolType, a.derives_from SymbolType.Unknown) := by
  refine ⟨?_, ?_, ?_⟩ <;> decide

/-! ## Basic symbol-table lemmas -/

theorem lookup_store_same (t : List ((Scope × String) × Symbol))
    (scope : Scope) (name : String) (sym : Symbol) :
    lookupTable (storeTable t scope name sym) scope name = some sym := by
  induction t with
  | nil => simp [storeTable, lookupTable]
  | cons e rest ih =>
      by_cases h : e.1 = (scope, name)
      · simp [storeTable, lookupTable, h]
      · simp [storeTable, lookupTable, h, ih]

/-- Inserting a fresh `(scope, name)` with no declaration and no value just
creates the symbol. -/
theorem insert_fresh (st : SymbolTable) (qname : QName) (typ : SymbolType)
    (hfresh : lookupTable st.table qname.scope qname.name.text = none) :
    st.insert qname typ none none =
      { table := storeTable st.table qname.scope qname.name.text
          ⟨qname.name.text, typ, qname.name, none, none, none, []⟩,
        issues := st.issues, qnames := st.qnames ++ [qname] } := by
  simp [SymbolTable.insert, hfresh, applyDeclValue]

/-- Inserting over an existing symbol whose type the new type derives from
narrows the type and moves the defining token; no issue is emitted. -/
theorem insert_narrow (st : SymbolTable) (qname : QName) (typ : SymbolType)
    (sym : Symbol)
    (hfound : lookupTable st.table qname.scope qname.name.text = some sym)
    (hder : typ.derives_from sym.type = true) :
    st.insert qname typ none none =
      { table := storeTable st.table qname.scope qname.name.text
          { sym with type := typ, type_name := qname.name },
        issues := st.issues, qnames := st.qnames ++ [qname] } := by
  simp [SymbolTable.insert, hfound, hder, applyDeclValue]

/-- Inserting over an existing symbol with a strictly narrower type keeps
the symbol as it is; no issue is emitted. -/
theorem insert_useless (st : SymbolTable) (qname : QName) (typ : SymbolType)
    (sym : Symbol)
    (hfound : lookupTable st.table qname.scope qname.name.text = some sym)
    (h1 : typ.derives_from sym.type = false)
    (h2 : sym.type.derives_from typ = true) :
    st.insert qname typ none none =
      { table := storeTable st.table qname.scope qname.name.text sym,
        issues := st.issues, qnames := st.qnames ++ [qname] } := by
  simp [SymbolTable.insert, hfound, h1, h2, applyDeclValue]

/-! ## Claim C1 -/

/-- C1: when `insert` finds an existing symbol for `(scope, name)` and
neither the new type derives from the existing one nor the existing one
from the new, the call appends exactly one `IncompatibleType` issue
(carrying the old type with its defining token's range and the new type
with the new occurrence's range), leaves the table — hence the symbol's
type, `decl_node`, `decl_name` and `value_node` — unchanged, emits no
`ObscuredValue` issue, and still appends the qname to the insertion-order
log. -/
theorem insert_incompatible_type (st : SymbolTable) (qname : QName)
    (typ : SymbolType) (decl_node value_node : Option Tree) (sym : Symbol)
    (hfound : lookupTable st.table qname.scope qname.name.text = some sym)
    (h1 : typ.derives_from sym.type = false)
    (h2 : sym.type.derives_from typ = false) :
    st.insert qname typ decl_node value_node =
      { table := st.table,
        issues := st.issues ++
          [Issue.IncompatibleType sym.type sym.type_name.range typ
            qname.name.range],
        qnames := st.qnames ++ [qname] } := by
  simp [SymbolTable.insert, hfound, h1, h2]

/-- Concrete instance for `insert_incompatible_type`: a table holding `J`
as a `Species`, then an insertion of `J` as a `Compartment`. -/
theorem insert_incompatible_type_witness :
    (lookupTable [((Scope.base, "J"),
        ⟨"J", SymbolType.Species, ⟨1, ⟨⟨1, 1⟩, ⟨1, 2⟩⟩, "J", none, none⟩,
          none, none, none, []⟩)] Scope.base "J" =
      some ⟨"J", SymbolType.Species, ⟨1, ⟨⟨1, 1⟩, ⟨1, 2⟩⟩, "J", none, none⟩,
          none, none, none, []⟩) ∧
    (SymbolTable.insert
      ⟨[((Scope.base, "J"),
          ⟨"J", SymbolType.Species, ⟨1, ⟨⟨1, 1⟩, ⟨1, 2⟩⟩, "J", none, none⟩,
            none, none, none, []⟩)], [], []⟩
      ⟨Scope.base, ⟨2, ⟨⟨2, 1⟩, ⟨2, 2⟩⟩, "J", none, none⟩⟩
      SymbolType.Compartment none none =
      { table := [((Scope.base, "J"),
          ⟨"J", SymbolType.Species, ⟨1, ⟨⟨1, 1⟩, ⟨1, 2⟩⟩, "J", none, none⟩,
            none, none, none, []⟩)],
        issues := [Issue.IncompatibleType SymbolType.Species ⟨⟨1, 1⟩, ⟨1, 2⟩⟩
          SymbolType.Compartment ⟨⟨2, 1⟩, ⟨2, 2⟩⟩],
        qnames := [⟨Scope.base, ⟨2, ⟨⟨2, 1⟩, ⟨2, 2⟩⟩, "J", none, none⟩⟩] }) :=
  ⟨rfl, insert_incompatible_type _ _ _ _ _
    ⟨"J", SymbolType.Species, ⟨1, ⟨⟨1, 1⟩, ⟨1, 2⟩⟩, "J", none, none⟩,
      none, none, none, []⟩ rfl rfl rfl⟩

/-! ## Claim C3 -/

/-- C3: narrowing is order-independent and idempotent for comparable
types.  With `B.derives_from A` and a fresh `(scope, name)`: inserting
`A` then `B` yields a symbol of type `B` with the issue list unchanged;
inserting `B` then `A` does too; and two consecutive insertions of the
same `(scope, name, type)` — from any state in which that type is
comparable with the symbol's current type, which is what "narrowing"
presupposes — add no `IncompatibleType` issue (indeed no issue at all)
and leave the symbol's type unchanged between the first and the second
insertion. -/
theorem insert_narrowing_order_independent (st : SymbolTable) (scope : Scope)
    (n1 n2 : LeafData) (A B : SymbolType)
    (htext : n2.text = n1.text)
    (hBA : B.derives_from A = true)
    (hfresh : lookupTable st.table scope n1.text = none) :
    (∃ sym, lookupTable ((st.insert ⟨scope, n1⟩ A none none).insert
        ⟨scope, n2⟩ B none none).table scope n1.text = some sym ∧
        sym.type = B) ∧
    ((st.insert ⟨scope, n1⟩ A none none).insert ⟨scope, n2⟩ B none none).issues
        = st.issues ∧
    (∃ sym, lookupTable ((st.insert ⟨scope, n1⟩ B none none).insert
        ⟨scope, n2⟩ A none none).table scope n1.text = some sym ∧
        sym.type = B) ∧
    ((st.insert ⟨scope, n1⟩ B none none).insert ⟨scope, n2⟩ A none none).issues
        = st.issues ∧
    (∀ (st' : SymbolTable) (typ : SymbolType),
      (∀ sym, lookupTable st'.table scope n1.text = some sym →
        (typ.derives_from sym.type = true ∨ sym.type.derives_from typ = true)) →
      ((st'.insert ⟨scope, n1⟩ typ none none).insert ⟨scope, n2⟩ typ none
          none).issues = st'.issues ∧
      (lookupTable ((st'.insert ⟨scope, n1⟩ typ none none).insert ⟨scope, n2⟩
          typ none none).table scope n1.text).map Symbol.type =
        (lookupTable (st'.insert ⟨scope, n1⟩ typ none none).table scope
          n1.text).map Symbol.type) := by
  have hrefl : ∀ c : SymbolType, c.derives_from c = true := by decide
  have hanti : ∀ c d : SymbolType, c.derives_from d = true →
      d.derives_from c = true → c = d := by decide
  have hlook2 : ∀ (t : List ((Scope × String) × Symbol)) (sym : Symbol),
      lookupTable (storeTable t scope n1.text sym) scope n2.text = some sym := by
    intro t sym
    rw [htext]
    exact lookup_store_same t scope n1.text sym
  have hlook1 : ∀ (t : List ((Scope × String) × Symbol)) (sym : Symbol),
      lookupTable (storeTable t scope n2.text sym) scope n1.text = some sym := by
    intro t sym
    rw [← htext]
    exact lookup_store_same t scope n2.text sym
  have stepAB : ∀ (T U : SymbolType), U.derives_from T = true →
      (st.insert ⟨scope, n1⟩ T none none).insert ⟨scope, n2⟩ U none none =
      { table := storeTable
          (storeTable st.table scope n1.text ⟨n1.text, T, n1, none, none, none, []⟩)
          scope n2.text ⟨n1.text, U, n2, none, none, none, []⟩,
        issues := st.issues,
        qnames := st.qnames ++ [⟨scope, n1⟩] ++ [⟨scope, n2⟩] } := by
    intro T U hUT
    rw [insert_fresh st ⟨scope, n1⟩ T hfresh]
    exact insert_narrow _ ⟨scope, n2⟩ U ⟨n1.text, T, n1, none, none, none, []⟩
      (hlook2 _ _) hUT
  have stepBAeq : B.derives_from B = true →
      (st.insert ⟨scope, n1⟩ B none none).insert ⟨scope, n2⟩ B none none =
      { table := storeTable
          (storeTable st.table scope n1.text ⟨n1.text, B, n1, none, none, none, []⟩)
          scope n2.text ⟨n1.text, B, n2, none, none, none, []⟩,
        issues := st.issues,
        qnames := st.qnames ++ [⟨scope, n1⟩] ++ [⟨scope, n2⟩] } := stepAB B B
  have stepBAlt : A.derives_from B = false →
      (st.insert ⟨scope, n1⟩ B none none).insert ⟨scope, n2⟩ A none none =
      { table := storeTable
          (storeTable st.table scope n1.text ⟨n1.text, B, n1, none, none, none, []⟩)
          scope n2.text ⟨n1.text, B, n1, none, none, none, []⟩,
        issues := st.issues,
        qnames := st.qnames ++ [⟨scope, n1⟩] ++ [⟨scope, n2⟩] } := by
    intro hAB
    rw [insert_fresh st ⟨scope, n1⟩ B hfresh]
    exact insert_useless _ ⟨scope, n2⟩ A ⟨n1.text, B, n1, none, none, none, []⟩
      (hlook2 _ _) hAB hBA
  refine ⟨?_, ?_, ?_, ?_, ?_⟩
  · rw [stepAB A B hBA]
    exact ⟨⟨n1.text, B, n2, none, none, none, []⟩, hlook1 _ _, rfl⟩
  · rw [stepAB A B hBA]
  · by_cases hAB : A.derives_from B = true
    · have hEq : A = B := hanti _ _ hAB hBA
      subst hEq
      rw [stepBAeq (hrefl A)]
      exact ⟨⟨n1.text, A, n2, none, none, none, []⟩, hlook1 _ _, rfl⟩
    · rw [stepBAlt (Bool.eq_false_iff.mpr hAB)]
      exact ⟨⟨n1.text, B, n1, none, none, none, []⟩, hlook1 _ _, rfl⟩
  · by_cases hAB : A.derives_from B = true
    · have hEq : A = B := hanti _ _ hAB hBA
      subst hEq
      rw [stepBAeq (hrefl A)]
    · rw [stepBAlt (Bool.eq_false_iff.mpr hAB)]
  · intro st' typ hcompat
    have hstep : ∀ sym' : Symbol,
        lookupTable (st'.insert ⟨scope, n1⟩ typ none none).table scope
          n1.text = some sym' →
        (st'.insert ⟨scope, n1⟩ typ none none).issues = st'.issues →
        (sym'.type = typ ∨ (typ.derives_from sym'.type = false ∧
          sym'.type.derives_from typ = true)) →
        ((st'.insert ⟨scope, n1⟩ typ none none).insert ⟨scope, n2⟩ typ
          none none).issues = st'.issues ∧
        (lookupTable ((st'.insert ⟨scope, n1⟩ typ none none).insert
            ⟨scope, n2⟩ typ none none).table scope n1.text).map
          Symbol.type =
        (lookupTable (st'.insert ⟨scope, n1⟩ typ none none).table scope
            n1.text).map Symbol.type := by
      intro sym' hfound2 hiss hty
      have hfound2' : lookupTable (st'.insert ⟨scope, n1⟩ typ none
          none).table scope n2.text = some sym' := by
        rw [htext]; exact hfound2
      rcases hty with hty | ⟨hff, htt⟩
      · have e2 := insert_narrow (st'.insert ⟨scope, n1⟩ typ none none)
          ⟨scope, n2⟩ typ sym' hfound2' (by rw [hty]; exact hrefl typ)
        rw [e2]
        refine ⟨hiss, ?_⟩
        simp only [hlook1, hfound2]
        simp [hty]
      · have e2 := insert_useless (st'.insert ⟨scope, n1⟩ typ none none)
          ⟨scope, n2⟩ typ sym' hfound2' hff htt
        rw [e2]
        refine ⟨hiss, ?_⟩
        simp only [hlook1, hfound2]
    cases hlookup : lookupTable st'.table scope n1.text with
    | none =>
        have e1 := insert_fresh st' ⟨scope, n1⟩ typ hlookup
        refine hstep ⟨n1.text, typ, n1, none, none, none, []⟩ ?_ ?_
          (Or.inl rfl)
        · rw [e1]; exact lookup_store_same _ _ _ _
        · rw [e1]
    | some sym =>
        rcases hcompat sym hlookup with hc | hc
        · have e1 := insert_narrow st' ⟨scope, n1⟩ typ sym hlookup hc
          refine hstep { sym with type := typ, type_name := n1 } ?_ ?_
            (Or.inl rfl)
          · rw [e1]; exact lookup_store_same _ _ _ _
          · rw [e1]
        · by_cases hc' : typ.derives_from sym.type = true
          · have e1 := insert_narrow st' ⟨scope, n1⟩ typ sym hlookup hc'
            refine hstep { sym with type := typ, type_name := n1 } ?_ ?_
              (Or.inl rfl)
            · rw [e1]; exact lookup_store_same _ _ _ _
            · rw [e1]
          · have e1 := insert_useless st' ⟨scope, n1⟩ typ sym hlookup
              (Bool.eq_false_iff.mpr hc') hc
            refine hstep sym ?_ ?_
              (Or.inr ⟨Bool.eq_false_iff.mpr hc', hc⟩)
            · rw [e1]; exact lookup_store_same _ _ _ _
            · rw [e1]

/-- Concrete instance for `insert_narrowing_order_independent`: `A` =
`Parameter`, `B` = `Species`, inserted at a fresh name `x` of an empty
table. -/
theorem insert_narrowing_order_independent_witness :
    ((⟨2, ⟨⟨1, 5⟩, ⟨1, 6⟩⟩, "x", none, none⟩ : LeafData).text =
      (⟨1, ⟨⟨1, 1⟩, ⟨1, 2⟩⟩, "x", none, none⟩ : LeafData).text) ∧
    (SymbolType.Species.derives_from SymbolType.Parameter = true) ∧
    (lookupTable ([] : List ((Scope × String) × Symbol)) Scope.base "x" =
      none) ∧
    (∃ sym, lookupTable ((SymbolTable.insert ⟨[], [], []⟩
        ⟨Scope.base, ⟨1, ⟨⟨1, 1⟩, ⟨1, 2⟩⟩, "x", none, none⟩⟩
        SymbolType.Parameter none none).insert
        ⟨Scope.base, ⟨2, ⟨⟨1, 5⟩, ⟨1, 6⟩⟩, "x", none, none⟩⟩
        SymbolType.Species none none).table Scope.base "x" = some sym ∧
        sym.type = SymbolType.Species) := by
  refine ⟨rfl, rfl, rfl, ?_⟩
  exact (insert_narrowing_order_independent ⟨[], [], []⟩ Scope.base
    ⟨1, ⟨⟨1, 1⟩, ⟨1, 2⟩⟩, "x", none, none⟩
    ⟨2, ⟨⟨1, 5⟩, ⟨1, 6⟩⟩, "x", none, none⟩
    SymbolType.Parameter SymbolType.Species rfl rfl rfl).1

/-! ## Claim C4: ObscuredValue on re-assignment -/

/-- General part of C4: when `insert` is called with a value node for a
`(scope, name)` whose symbol already has one and no incompatible-type
conflict occurs in the call, exactly one `ObscuredValue` warning is
appended — carrying the old value node's range, the new value node's range
and the name — and the symbol's `value_node` is overwritten with the new
node. -/
theorem insert_obscured_value_general (st : SymbolTable) (qname : QName)
    (typ : SymbolType) (decl_node : Option Tree) (v w : Tree) (sym : Symbol)
    (hfound : lookupTable st.table qname.scope qname.name.text = some sym)
    (hval : sym.value_node = some v)
    (hcompat : typ.derives_from sym.type = true ∨
      sym.type.derives_from typ = true) :
    (st.insert qname typ decl_node (some w)).issues =
      st.issues ++ [Issue.ObscuredValue v.rangeD w.rangeD qname.name.text] ∧
    ∃ sym', lookupTable (st.insert qname typ decl_node (some w)).table
        qname.scope qname.name.text = some sym' ∧
      sym'.value_node = some w := by
  cases decl_node with
  | none =>
      rcases hcompat with hc | hc
      · constructor
        · simp [SymbolTable.insert, hfound, hc, applyDeclValue, hval]
        · refine ⟨{ sym with
                      type := typ, type_name := qname.name,
                      value_node := some w }, ?_, rfl⟩
          simp [SymbolTable.insert, hfound, hc, applyDeclValue, hval,
            lookup_store_same]
      · by_cases hc' : typ.derives_from sym.type = true
        · constructor
          · simp [SymbolTable.insert, hfound, hc', applyDeclValue, hval]
          · refine ⟨{ sym with
                        type := typ, type_name := qname.name,
                        value_node := some w }, ?_, rfl⟩
            simp [SymbolTable.insert, hfound, hc', applyDeclValue, hval,
              lookup_store_same]
        · have hcf : typ.derives_from sym.type = false :=
            Bool.eq_false_iff.mpr hc'
          constructor
          · simp [SymbolTable.insert, hfound, hcf, hc, applyDeclValue, hval]
          · refine ⟨{ sym with value_node := some w }, ?_, rfl⟩
            simp [SymbolTable.insert, hfound, hcf, hc, applyDeclValue,
              hval, lookup_store_same]
  | some d =>
      rcases hcompat with hc | hc
      · constructor
        · simp [SymbolTable.insert, hfound, hc, applyDeclValue, hval]
        · refine ⟨{ sym with
                      type := typ, type_name := qname.name,
                      decl_node := some d, decl_name := some qname.name,
                      value_node := some w }, ?_, rfl⟩
          simp [SymbolTable.insert, hfound, hc, applyDeclValue, hval,
            lookup_store_same]
      · by_cases hc' : typ.derives_from sym.type = true
        · constructor
          · simp [SymbolTable.insert, hfound, hc', applyDeclValue, hval]
          · refine ⟨{ sym with
                        type := typ, type_name := qname.name,
                        decl_node := some d, decl_name := some qname.name,
                        value_node := some w }, ?_, rfl⟩
            simp [SymbolTable.insert, hfound, hc', applyDeclValue, hval,
              lookup_store_same]
        · have hcf : typ.derives_from sym.type = false :=
            Bool.eq_false_iff.mpr hc'
          constructor
          · simp [SymbolTable.insert, hfound, hcf, hc, applyDeclValue, hval]
          · refine ⟨{ sym with
                        decl_node := some d, decl_name := some qname.name,
                        value_node := some w }, ?_, rfl⟩
            simp [SymbolTable.insert, hfound, hcf, hc, applyDeclValue,
              hval, lookup_store_same]

/-- C4: a second value node for a symbol that already has one (and whose
type does not conflict) appends exactly one `ObscuredValue` warning with
the old range, the new range and the name, and overwrites the symbol's
`value_node`; and analyzing `const species A = 5; A = 10;` ends with a
single symbol `A` of type `Species` — narrowed by the declaration — whose
`value_node` was set by the declaration item and then overwritten by the
assignment, and exactly one `ObscuredValue` issue referencing both
assignment positions. -/
theorem insert_obscured_value :
    (∀ (st : SymbolTable) (qname : QName) (typ : SymbolType)
      (decl_node : Option Tree) (v w : Tree) (sym : Symbol),
      lookupTable st.table qname.scope qname.name.text = some sym →
      sym.value_node = some v →
      (typ.derives_from sym.type = true ∨
        sym.type.derives_from typ = true) →
      (st.insert qname typ decl_node (some w)).issues =
        st.issues ++
          [Issue.ObscuredValue v.rangeD w.rangeD qname.name.text] ∧
      ∃ sym', lookupTable (st.insert qname typ decl_node (some w)).table
          qname.scope qname.name.text = some sym' ∧
        sym'.value_node = some w) ∧
    analyze exObscuredRoot = Except.ok
      ⟨⟨[((Scope.base, "A"),
          ⟨"A", SymbolType.Species,
            ⟨21, ⟨⟨1, 15⟩, ⟨1, 16⟩⟩, "A", none, none⟩,
            some ⟨21, ⟨⟨1, 15⟩, ⟨1, 16⟩⟩, "A", none, none⟩,
            some exDeclaration, some exAssignment, []⟩)],
        [Issue.ObscuredValue ⟨⟨1, 15⟩, ⟨1, 20⟩⟩ ⟨⟨1, 22⟩, ⟨1, 28⟩⟩ "A"],
        [⟨Scope.base, ⟨21, ⟨⟨1, 15⟩, ⟨1, 16⟩⟩, "A", none, none⟩⟩,
         ⟨Scope.base, ⟨26, ⟨⟨1, 22⟩, ⟨1, 23⟩⟩, "A", none, none⟩⟩]⟩,
       []⟩ :=
  ⟨fun st qname typ decl_node v w sym hfound hval hcompat =>
    insert_obscured_value_general st qname typ decl_node v w sym hfound
      hval hcompat, rfl⟩

/-- Concrete instance for `insert_obscured_value`: a symbol `A` with an
existing value node receives a second one. -/
theorem insert_obscured_value_witness :
    (lookupTable [((Scope.base, "A"),
        ⟨"A", SymbolType.Species, ⟨1, ⟨⟨1, 1⟩, ⟨1, 2⟩⟩, "A", none, none⟩,
          none, none,
          some (Tree.leaf LeafKind.Number
            ⟨31, ⟨⟨1, 19⟩, ⟨1, 20⟩⟩, "5", none, none⟩), []⟩)]
      Scope.base "A" =
      some ⟨"A", SymbolType.Species,
        ⟨1, ⟨⟨1, 1⟩, ⟨1, 2⟩⟩, "A", none, none⟩, none, none,
        some (Tree.leaf LeafKind.Number
          ⟨31, ⟨⟨1, 19⟩, ⟨1, 20⟩⟩, "5", none, none⟩), []⟩) ∧
    ((SymbolTable.insert
      ⟨[((Scope.base, "A"),
          ⟨"A", SymbolType.Species, ⟨1, ⟨⟨1, 1⟩, ⟨1, 2⟩⟩, "A", none, none⟩,
            none, none,
            some (Tree.leaf LeafKind.Number
              ⟨31, ⟨⟨1, 19⟩, ⟨1, 20⟩⟩, "5", none, none⟩), []⟩)], [], []⟩
      ⟨Scope.base, ⟨2, ⟨⟨1, 22⟩, ⟨1, 23⟩⟩, "A", none, none⟩⟩
      SymbolType.Parameter none
      (some (Tree.leaf LeafKind.Number
        ⟨32, ⟨⟨1, 26⟩, ⟨1, 28⟩⟩, "10", none, none⟩))).issues =
      [] ++ [Issue.ObscuredValue ⟨⟨1, 19⟩, ⟨1, 20⟩⟩ ⟨⟨1, 26⟩, ⟨1, 28⟩⟩ "A"]) :=
  ⟨rfl,
    (insert_obscured_value.1
      ⟨[((Scope.base, "A"),
          ⟨"A", SymbolType.Species, ⟨1, ⟨⟨1, 1⟩, ⟨1, 2⟩⟩, "A", none, none⟩,
            none, none,
            some (Tree.leaf LeafKind.Number
              ⟨31, ⟨⟨1, 19⟩, ⟨1, 20⟩⟩, "5", none, none⟩), []⟩)], [], []⟩
      ⟨Scope.base, ⟨2, ⟨⟨1, 22⟩, ⟨1, 23⟩⟩, "A", none, none⟩⟩
      SymbolType.Parameter none
      (Tree.leaf LeafKind.Number ⟨31, ⟨⟨1, 19⟩, ⟨1, 20⟩⟩, "5", none, none⟩)
      (Tree.leaf LeafKind.Number ⟨32, ⟨⟨1, 26⟩, ⟨1, 28⟩⟩, "10", none, none⟩)
      ⟨"A", SymbolType.Species, ⟨1, ⟨⟨1, 1⟩, ⟨1, 2⟩⟩, "A", none, none⟩,
        none, none,
        some (Tree.leaf LeafKind.Number
          ⟨31, ⟨⟨1, 19⟩, ⟨1, 20⟩⟩, "5", none, none⟩), []⟩
      rfl rfl (Or.inr rfl)).1⟩

/-! ## Claim C10: analysis populates only the base scope -/

theorem except_bind_ok {α β ε : Type} (a : α) (f : α → Except ε β) :
    (Except.ok a >>= f) = f a := rfl

theorem except_bind_error {α β ε : Type} (e : ε) (f : α → Except ε β) :
    ((Except.error e : Except ε α) >>= f) = Except.error e := rfl

theorem storeTable_scopes (t : List ((Scope × String) × Symbol))
    (sc : Scope) (name : String) (sym : Symbol)
    (h : ∀ e ∈ t, e.1.1 = sc) :
    ∀ e ∈ storeTable t sc name sym, e.1.1 = sc := by
  induction t with
  | nil =>
      intro e he
      simp only [storeTable, List.mem_singleton] at he
      rw [he]
  | cons f rest ih =>
      intro e he
      rw [storeTable] at he
      by_cases hf : f.1 = (sc, name)
      · rw [if_pos hf] at he
        rcases List.mem_cons.mp he with he' | he'
        · rw [he']; rw [hf]
        · exact h e (List.mem_cons_of_mem f he')
      · rw [if_neg hf] at he
        rcases List.mem_cons.mp he with he' | he'
        · rw [he']; exact h f (List.mem_cons_self f rest)
        · exact ih (fun e' he'' => h e' (List.mem_cons_of_mem f he'')) e he'

theorem qnames_append_scope (qs : List QName) (qname : QName) (sc : Scope)
    (h : ∀ q ∈ qs, q.scope = sc) (hq : qname.scope = sc) :
    ∀ q ∈ qs ++ [qname], q.scope = sc := by
  intro q hmem
  rcases List.mem_append.mp hmem with hmem' | hmem'
  · exact h q hmem'
  · rw [List.mem_singleton.mp hmem']; exact hq

theorem insert_scope_only (st : SymbolTable) (qname : QName)
    (typ : SymbolType) (dn vn : Option Tree)
    (h : ScopeOnly st qname.scope) :
    ScopeOnly (st.insert qname typ dn vn) qname.scope := by
  cases hl : lookupTable st.table qname.scope qname.name.text with
  | none =>
      rcases hAD : applyDeclValue
          ⟨qname.name.text, typ, qname.name, none, none, none, []⟩
          st.issues qname dn vn with ⟨symX, issuesX⟩
      simp only [SymbolTable.insert, hl, hAD]
      exact ⟨storeTable_scopes st.table qname.scope qname.name.text symX h.1,
        qnames_append_scope st.qnames qname qname.scope h.2 rfl⟩
  | some sym =>
      by_cases hd : typ.derives_from sym.type = true
      · rcases hAD : applyDeclValue
            { sym with type := typ, type_name := qname.name }
            st.issues qname dn vn with ⟨symX, issuesX⟩
        simp only [SymbolTable.insert, hl, hd, if_true, hAD]
        exact ⟨storeTable_scopes st.table qname.scope qname.name.text symX
            h.1,
          qnames_append_scope st.qnames qname qname.scope h.2 rfl⟩
      · by_cases hd2 : sym.type.derives_from typ = true
        · rcases hAD : applyDeclValue sym st.issues qname dn vn
            with ⟨symX, issuesX⟩
          simp only [SymbolTable.insert, hl, hd, hd2, if_true, if_false,
            Bool.false_eq_true, hAD]
          exact ⟨storeTable_scopes st.table qname.scope qname.name.text symX
              h.1,
            qnames_append_scope st.qnames qname qname.scope h.2 rfl⟩
        · simp only [SymbolTable.insert, hl, hd, hd2, Bool.false_eq_true,
            if_false]
          exact ⟨h.1, qnames_append_scope st.qnames qname qname.scope h.2
            rfl⟩

theorem insert_annot_scope_only (st : SymbolTable) (qname : QName)
    (node : Tree) (h : ScopeOnly st qname.scope) :
    ScopeOnly (SymbolTable.insert_annot st qname node) qname.scope := by
  cases hl : lookupTable st.table qname.scope qname.name.text with
  | none =>
      simp only [SymbolTable.insert_annot, hl]
      exact ⟨storeTable_scopes st.table qname.scope qname.name.text _ h.1,
        h.2⟩
  | some sym =>
      simp only [SymbolTable.insert_annot, hl]
      exact ⟨storeTable_scopes st.table qname.scope qname.name.text _ h.1,
        h.2⟩

theorem foldl_arith_scope_only (scope : Scope)
    (ls : List (LeafKind × LeafData)) :
    ∀ st : SymbolTable, ScopeOnly st scope →
    ScopeOnly (ls.foldl
      (fun acc l =>
        if l.1 = LeafKind.Name then
          acc.insert ⟨scope, l.2⟩ SymbolType.Parameter none none
        else acc) st) scope := by
  induction ls with
  | nil => intro st h; exact h
  | cons l rest ih =>
      intro st h
      rw [List.foldl_cons]
      by_cases hn : l.1 = LeafKind.Name
      · rw [if_pos hn]
        exact ih _ (insert_scope_only st ⟨scope, l.2⟩ SymbolType.Parameter
          none none h)
      · rw [if_neg hn]
        exact ih _ h

theorem handle_arith_expr_scope_only (scope : Scope) (st : SymbolTable)
    (expr : Tree) (h : ScopeOnly st scope) :
    ScopeOnly (handle_arith_expr scope st expr) scope := by
  cases expr with
  | missing => exact h
  | leaf k d =>
      cases k with
      | Name =>
          exact insert_scope_only st ⟨scope, d⟩ SymbolType.Parameter none
            none h
      | Number => exact h
      | Operator => exact h
      | Keyword => exact h
      | StringLiteral => exact h
      | Newline => exact h
      | ErrorToken => exact h
      | VarModifier => exact h
      | TypeModifier => exact h
  | trunk k r ch => exact foldl_arith_scope_only scope _ st h

theorem insertSpecies_scope_only (scope : Scope) :
    ∀ (l : List Tree) (st st' : SymbolTable),
    insertSpecies scope l st = Except.ok st' → ScopeOnly st scope →
    ScopeOnly st' scope := by
  intro l
  induction l with
  | nil =>
      intro st st' hok h
      rw [insertSpecies] at hok
      rw [← Except.ok.inj hok]
      exact h
  | cons sp rest ih =>
      intro st st' hok h
      rw [insertSpecies] at hok
      cases hc : sp.child 2 with
      | error e =>
          rw [hc, except_bind_error] at hok
          exact Except.noConfusion hok
      | ok nTree =>
          rw [hc, except_bind_ok] at hok
          cases hn : nTree.asLeaf with
          | error e =>
              rw [hn, except_bind_error] at hok
              exact Except.noConfusion hok
          | ok nd =>
              rw [hn, except_bind_ok] at hok
              exact ih _ _ hok (insert_scope_only st ⟨scope, nd⟩
                SymbolType.Species none none h)

theorem reactionNameInsert_scope_only (scope : Scope) (st : SymbolTable)
    (reaction c0 : Tree) (st' : SymbolTable)
    (hok : reactionNameInsert scope st reaction c0 = Except.ok st')
    (h : ScopeOnly st scope) : ScopeOnly st' scope := by
  have hbranch : ∀ rn : Tree,
      (do
        let nameTree ← getMaybeinName rn
        let nd ← nameTree.asLeaf
        Except.ok (st.insert ⟨scope, nd⟩ SymbolType.Reaction
          (some reaction) none)) = Except.ok st' →
      ScopeOnly st' scope := by
    intro rn hm
    cases hg : getMaybeinName rn with
    | error e =>
        rw [hg, except_bind_error] at hm
        exact Except.noConfusion hm
    | ok nameTree =>
        rw [hg, except_bind_ok] at hm
        cases hn : nameTree.asLeaf with
        | error e =>
            rw [hn, except_bind_error] at hm
            exact Except.noConfusion hm
        | ok nd =>
            rw [hn, except_bind_ok] at hm
            rw [← Except.ok.inj hm]
            exact insert_scope_only st ⟨scope, nd⟩ SymbolType.Reaction
              (some reaction) none h
  cases c0 with
  | missing =>
      rw [reactionNameInsert] at hok
      rw [← Except.ok.inj hok]
      exact h
  | leaf k d => exact hbranch _ hok
  | trunk k r ch => exact hbranch _ hok

theorem handle_reaction_scope_only (scope : Scope) (st : SymbolTable)
    (reaction : Tree) (st' : SymbolTable)
    (hok : handle_reaction scope st reaction = Except.ok st')
    (h : ScopeOnly st scope) : ScopeOnly st' scope := by
  rw [handle_reaction] at hok
  cases hc0 : reaction.child 0 with
  | error e =>
      rw [hc0, except_bind_error] at hok
      exact Except.noConfusion hok
  | ok c0 =>
      rw [hc0, except_bind_ok] at hok
      cases hM : reactionNameInsert scope st reaction c0 with
      | error e =>
          rw [hM, except_bind_error] at hok
          exact Except.noConfusion hok
      | ok st1 =>
          rw [hM, except_bind_ok] at hok
          have h1 := reactionNameInsert_scope_only scope st reaction c0
            st1 hM h
          cases hr : reaction.child 1 with
          | error e =>
              rw [hr, except_bind_error] at hok
              exact Except.noConfusion hok
          | ok rlist =>
              rw [hr, except_bind_ok] at hok
              cases hp : reaction.child 3 with
              | error e =>
                  rw [hp, except_bind_error] at hok
                  exact Except.noConfusion hok
              | ok plist =>
                  rw [hp, except_bind_ok] at hok
                  cases hra : speciesListAll rlist with
                  | error e =>
                      rw [hra, except_bind_error] at hok
                      exact Except.noConfusion hok
                  | ok reactants =>
                      rw [hra, except_bind_ok] at hok
                      cases hpa : speciesListAll plist with
                      | error e =>
                          rw [hpa, except_bind_error] at hok
                          exact Except.noConfusion hok
                      | ok products =>
                          rw [hpa, except_bind_ok] at hok
                          cases hs2 : insertSpecies scope reactants st1 with
                          | error e =>
                              rw [hs2, except_bind_error] at hok
                              exact Except.noConfusion hok
                          | ok st2 =>
                              rw [hs2, except_bind_ok] at hok
                              have h2 := insertSpecies_scope_only scope
                                reactants st1 st2 hs2 h1
                              cases hs3 : insertSpecies scope products st2 with
                              | error e =>
                                  rw [hs3, except_bind_error] at hok
                                  exact Except.noConfusion hok
                              | ok st3 =>
                                  rw [hs3, except_bind_ok] at hok
                                  have h3 := insertSpecies_scope_only scope
                                    products st2 st3 hs3 h2
                                  cases hrt : reaction.child 5 with
                                  | error e =>
                                      rw [hrt, except_bind_error] at hok
                                      exact Except.noConfusion hok
                                  | ok rate =>
                                      rw [hrt, except_bind_ok] at hok
                                      rw [← Except.ok.inj hok]
                                      exact handle_arith_expr_scope_only
                                        scope st3 rate h3

theorem handle_assignment_scope_only (scope : Scope) (st : SymbolTable)
    (assignment : Tree) (st' : SymbolTable)
    (hok : handle_assignment scope st assignment = Except.ok st')
    (h : ScopeOnly st scope) : ScopeOnly st' scope := by
  rw [handle_assignment] at hok
  cases hg : getMaybeinName assignment with
  | error e =>
      rw [hg, except_bind_error] at hok
      exact Except.noConfusion hok
  | ok nameTree =>
      rw [hg, except_bind_ok] at hok
      cases hn : nameTree.asLeaf with
      | error e =>
          rw [hn, except_bind_error] at hok
          exact Except.noConfusion hok
      | ok nd =>
          rw [hn, except_bind_ok] at hok
          cases hv : assignment.child 2 with
          | error e =>
              rw [hv, except_bind_error] at hok
              exact Except.noConfusion hok
          | ok value =>
              rw [hv, except_bind_ok] at hok
              rw [← Except.ok.inj hok]
              exact handle_arith_expr_scope_only scope _ value
                (insert_scope_only st ⟨scope, nd⟩ SymbolType.Parameter
                  none (some assignment) h)

theorem insertDeclItems_scope_only (scope : Scope) (declaration : Tree)
    (stype : SymbolType) :
    ∀ (l : List Tree) (st st' : SymbolTable),
    insertDeclItems scope declaration stype l st = Except.ok st' →
    ScopeOnly st scope → ScopeOnly st' scope := by
  intro l
  induction l with
  | nil =>
      intro st st' hok h
      rw [insertDeclItems] at hok
      rw [← Except.ok.inj hok]
      exact h
  | cons item rest ih =>
      intro st st' hok h
      rw [insertDeclItems] at hok
      cases hg : getMaybeinName item with
      | error e =>
          rw [hg, except_bind_error] at hok
          exact Except.noConfusion hok
      | ok nameTree =>
          rw [hg, except_bind_ok] at hok
          cases hn : nameTree.asLeaf with
          | error e =>
              rw [hn, except_bind_error] at hok
              exact Except.noConfusion hok
          | ok nd =>
              rw [hn, except_bind_ok] at hok
              cases hv : declItemGetValue item with
              | error e =>
                  rw [hv, except_bind_error] at hok
                  exact Except.noConfusion hok
              | ok value =>
                  rw [hv, except_bind_ok] at hok
                  cases value with
                  | missing =>
                      exact ih _ _ hok (insert_scope_only st ⟨scope, nd⟩
                        stype (some declaration) none h)
                  | leaf k d =>
                      exact ih _ _ hok (handle_arith_expr_scope_only scope _
                        _ (insert_scope_only st ⟨scope, nd⟩ stype
                          (some declaration) (some item) h))
                  | trunk k r ch =>
                      exact ih _ _ hok (handle_arith_expr_scope_only scope _
                        _ (insert_scope_only st ⟨scope, nd⟩ stype
                          (some declaration) (some item) h))

theorem handle_declaration_scope_only (scope : Scope) (st : SymbolTable)
    (declaration : Tree) (st' : SymbolTable)
    (hok : handle_declaration scope st declaration = Except.ok st')
    (h : ScopeOnly st scope) : ScopeOnly st' scope := by
  cases declaration with
  | missing => exact Except.noConfusion hok
  | leaf k d => exact Except.noConfusion hok
  | trunk k r ch =>
      rw [handle_declaration] at hok
      cases hm : Tree.child (Tree.trunk k r ch) 0 with
      | error e =>
          rw [hm, except_bind_error] at hok
          exact Except.noConfusion hok
      | ok modifiers =>
          rw [hm, except_bind_ok] at hok
          cases hv : declModifiersGetVariab modifiers with
          | error e =>
              rw [hv, except_bind_error] at hok
              exact Except.noConfusion hok
          | ok variab =>
              rw [hv, except_bind_ok] at hok
              cases ht : declModifiersGetType modifiers with
              | error e =>
                  rw [ht, except_bind_error] at hok
                  exact Except.noConfusion hok
              | ok stype =>
                  rw [ht, except_bind_ok] at hok
                  exact insertDeclItems_scope_only scope _ stype _ st st'
                    hok h

theorem handle_annot_scope_only (scope : Scope) (st : SymbolTable)
    (ann : Tree) (st' : SymbolTable)
    (hok : handle_annot scope st ann = Except.ok st')
    (h : ScopeOnly st scope) : ScopeOnly st' scope := by
  rw [handle_annot] at hok
  cases hv : ann.child 0 with
  | error e =>
      rw [hv, except_bind_error] at hok
      exact Except.noConfusion hok
  | ok vn =>
      rw [hv, except_bind_ok] at hok
      cases hn : vn.child 1 with
      | error e =>
          rw [hn, except_bind_error] at hok
          exact Except.noConfusion hok
      | ok nameTree =>
          rw [hn, except_bind_ok] at hok
          cases hl : nameTree.asLeaf with
          | error e =>
              rw [hl, except_bind_error] at hok
              exact Except.noConfusion hok
          | ok nd =>
              rw [hl, except_bind_ok] at hok
              rw [← Except.ok.inj hok]
              exact insert_annot_scope_only _ ⟨scope, nd⟩ ann
                (insert_scope_only st ⟨scope, nd⟩ SymbolType.Parameter
                  none none h)

theorem insertIncomps_scope_only (scope : Scope) :
    ∀ (l : List Tree) (st st' : SymbolTable),
    insertIncomps scope l st = Except.ok st' → ScopeOnly st scope →
    ScopeOnly st' scope := by
  intro l
  induction l with
  | nil =>
      intro st st' hok h
      rw [insertIncomps] at hok
      rw [← Except.ok.inj hok]
      exact h
  | cons node rest ih =>
      intro st st' hok h
      cases node with
      | missing =>
          simp only [insertIncomps] at hok
          exact ih _ _ hok h
      | leaf k d =>
          simp only [insertIncomps] at hok
          exact ih _ _ hok h
      | trunk k r ch =>
          cases k
          case InComp =>
            rw [insertIncomps] at hok
            cases hc : Tree.child (Tree.trunk TrunkKind.InComp r ch) 1 with
            | error e =>
                rw [hc, except_bind_error] at hok
                exact Except.noConfusion hok
            | ok comp =>
                rw [hc, except_bind_ok] at hok
                cases hn : comp.child 1 with
                | error e =>
                    rw [hn, except_bind_error] at hok
                    exact Except.noConfusion hok
                | ok nameTree =>
                    rw [hn, except_bind_ok] at hok
                    cases hl : nameTree.asLeaf with
                    | error e =>
                        rw [hl, except_bind_error] at hok
                        exact Except.noConfusion hok
                    | ok nd =>
                        rw [hl, except_bind_ok] at hok
                        exact ih _ _ hok (insert_scope_only st ⟨scope, nd⟩
                          SymbolType.Compartment none none h)
          all_goals
            simp only [insertIncomps] at hok
            exact ih _ _ hok h

theorem handle_child_incomp_scope_only (scope : Scope) (st : SymbolTable)
    (node : Tree) (st' : SymbolTable)
    (hok : handle_child_incomp scope st node = Except.ok st')
    (h : ScopeOnly st scope) : ScopeOnly st' scope :=
  insertIncomps_scope_only scope node.descendants st st' hok h

theorem handle_stmt_scope_only (scope : Scope) (st : SymbolTable)
    (s : Tree) (st' : SymbolTable)
    (hok : handle_stmt scope st s = Except.ok st')
    (h : ScopeOnly st scope) : ScopeOnly st' scope := by
  cases s with
  | missing => exact Except.noConfusion hok
  | leaf k d => exact Except.noConfusion hok
  | trunk k r ch =>
      cases k
      case Reaction =>
        rw [handle_stmt] at hok
        exact handle_reaction_scope_only scope st _ st' hok h
      case Assignment =>
        rw [handle_stmt] at hok
        exact handle_assignment_scope_only scope st _ st' hok h
      case Declaration =>
        rw [handle_stmt] at hok
        exact handle_declaration_scope_only scope st _ st' hok h
      case Annotation =>
        rw [handle_stmt] at hok
        exact handle_annot_scope_only scope st _ st' hok h
      all_goals exact Except.noConfusion hok

theorem processChildren_scope_only (scope : Scope) :
    ∀ (l : List Tree) (st st' : SymbolTable),
    processChildren scope l st = Except.ok st' → ScopeOnly st scope →
    ScopeOnly st' scope := by
  intro l
  induction l with
  | nil =>
      intro st st' hok h
      rw [processChildren] at hok
      rw [← Except.ok.inj hok]
      exact h
  | cons child rest ih =>
      intro st st' hok h
      have hgen : ∀ s : Tree,
          (do
            let st1 ← handle_stmt scope st s
            let st2 ← handle_child_incomp scope st1 s
            processChildren scope rest st2) = Except.ok st' →
          ScopeOnly st' scope := by
        intro s hm
        cases h1 : handle_stmt scope st s with
        | error e =>
            rw [h1, except_bind_error] at hm
            exact Except.noConfusion hm
        | ok st1 =>
            rw [h1, except_bind_ok] at hm
            cases h2 : handle_child_incomp scope st1 s with
            | error e =>
                rw [h2, except_bind_error] at hm
                exact Except.noConfusion hm
            | ok st2 =>
                rw [h2, except_bind_ok] at hm
                exact ih _ _ hm (handle_child_incomp_scope_only scope st1
                  s st2 h2 (handle_stmt_scope_only scope st s st1 h1 h))
      cases child with
      | missing =>
          simp only [processChildren] at hok
          exact ih _ _ hok h
      | leaf k d =>
          cases k
          all_goals
            simp only [processChildren] at hok
            exact ih _ _ hok h
      | trunk k r ch =>
          cases k
          case SimpleStmt =>
            rw [processChildren] at hok
            cases hs : Tree.child (Tree.trunk TrunkKind.SimpleStmt r ch) 0 with
            | error e =>
                rw [hs, except_bind_error] at hok
                exact Except.noConfusion hok
            | ok stmt =>
                rw [hs, except_bind_ok] at hok
                cases stmt with
                | missing => exact ih _ _ hok h
                | leaf k' d' => exact hgen _ hok
                | trunk k' r' ch' => exact hgen _ hok
          all_goals
            simp only [processChildren] at hok
            exact ih _ _ hok h

/-- C10: every symbol and every qname the analyzer creates lives in
`BaseScope` — the single `base_scope` is passed to every statement
handler, the compartment scan and the expression scan, and nothing ever
inserts into a `ModelScope` or `FunctionScope` — so after a successful
analysis every populated table entry and every logged qname has scope
`BaseScope`. -/
theorem analyze_base_scope_only (root : Tree) (res : AnalysisResult)
    (hok : analyze root = Except.ok res) :
    (∀ e ∈ res.table.table, e.1.1 = Scope.base) ∧
    (∀ q ∈ res.table.qnames, q.scope = Scope.base) := by
  cases root with
  | missing => exact Except.noConfusion hok
  | leaf k d => exact Except.noConfusion hok
  | trunk k r ch =>
      rw [analyze] at hok
      cases hp : processChildren Scope.base ch ⟨[], [], []⟩ with
      | error e =>
          rw [hp, except_bind_error] at hok
          exact Except.noConfusion hok
      | ok st =>
          rw [hp, except_bind_ok] at hok
          have hso := processChildren_scope_only Scope.base ch ⟨[], [], []⟩
            st hp ⟨by intro e he; simp at he, by intro q hq; simp at hq⟩
          rw [← Except.ok.inj hok]
          exact hso

/-- Concrete instance for `analyze_base_scope_only`: the analysis of
`const species A = 5; A = 10;` succeeds, and everything it created is in
`BaseScope`. -/
theorem analyze_base_scope_only_witness :
    (∃ res, analyze exObscuredRoot = Except.ok res) ∧
    (∀ res, analyze exObscuredRoot = Except.ok res →
      ∀ q ∈ res.table.qnames, q.scope = Scope.base) := by
  constructor
  · exact ⟨_, rfl⟩
  · intro res hok
    exact (analyze_base_scope_only exObscuredRoot res hok).2

theorem toDigitsCore_eq_decDigits :
    ∀ (f n : Nat) (acc : List Char), n < f →
    Nat.toDigitsCore 10 f n acc = decDigits n ++ acc := by
  intro f
  induction f with
  | zero => intro n acc h; omega
  | succ f ih =>
      intro n acc h
      by_cases h0 : n / 10 = 0
      · have hn : n < 10 := (Nat.div_eq_zero_iff (by omega)).mp h0
        simp only [Nat.toDigitsCore, h0, if_true]
        rw [decDigits, dif_pos hn, Nat.mod_eq_of_lt hn]
        rfl
      · have hn : ¬n < 10 := by
          intro hlt
          exact h0 ((Nat.div_eq_zero_iff (by omega)).mpr hlt)
        have hlt : n / 10 < f := by
          have := Nat.div_lt_self (show 0 < n by omega) (show 1 < 10 by omega)
          omega
        simp only [Nat.toDigitsCore, h0, if_false]
        rw [ih (n / 10) (Nat.digitChar (n % 10) :: acc) hlt]
        conv_rhs => rw [decDigits]
        rw [dif_neg hn]
        simp

theorem toDigits_eq_decDigits (n : Nat) :
    Nat.toDigits 10 n = decDigits n := by
  rw [Nat.toDigits, toDigitsCore_eq_decDigits (n + 1) n [] (by omega)]
  simp

theorem decValue_append_digit (xs : List Char) (c : Char) :
    decValue (xs ++ [c]) = decValue xs * 10 + digitVal c := by
  simp [decValue, List.foldl_append]

theorem digitVal_digitChar (d : Nat) (h : d < 10) :
    digitVal (Nat.digitChar d) = d := by
  interval_cases d <;> rfl

theorem decValue_decDigits (n : Nat) : decValue (decDigits n) = n := by
  induction n using Nat.strong_induction_on with
  | _ n ih =>
      rw [decDigits]
      by_cases h : n < 10
      · rw [dif_pos h]
        simp [decValue, digitVal_digitChar n h]
      · rw [dif_neg h]
        rw [decValue_append_digit,
          ih (n / 10) (Nat.div_lt_self (by omega) (by omega)),
          digitVal_digitChar (n % 10) (Nat.mod_lt _ (by omega))]
        omega

theorem decDigits_injective : Function.Injective decDigits := by
  intro a b h
  have := congrArg decValue h
  rwa [decValue_decDigits, decValue_decDigits] at this

theorem nat_repr_injective : Function.Injective Nat.repr := by
  intro a b h
  have h2 : Nat.toDigits 10 a = Nat.toDigits 10 b :=
    congrArg String.data h
  rw [toDigits_eq_decDigits, toDigits_eq_decDigits] at h2
  exact decDigits_injective h2

theorem candidate_injective (pre : String) :
    Function.Injective (fun i : Nat => pre ++ Nat.repr i) := by
  intro a b h
  have hd := congrArg String.data h
  simp only [String.data_append] at hd
  have := List.append_cancel_left hd
  exact nat_repr_injective (String.ext this)

theorem exists_free_index (names : List String) (pre : String) :
    ∃ i ≤ names.length, (pre ++ Nat.repr i) ∉ names := by
  by_contra hcon
  push_neg at hcon
  have hcard : (Finset.range (names.length + 1)).card ≤
      names.toFinset.card := by
    apply Finset.card_le_card_of_injOn (fun i => pre ++ Nat.repr i)
    · intro i hi
      rw [Finset.mem_range] at hi
      exact List.mem_toFinset.mpr (hcon i (by omega))
    · exact fun a _ b _ h => candidate_injective pre h
  rw [Finset.card_range] at hcard
  have := List.toFinset_card_le names
  omega

theorem probeNames_spec (names : List String) (pre : String) :
    ∀ (fuel i : Nat), (∃ k, k < fuel ∧ (pre ++ Nat.repr (i + k)) ∉ names) →
    ∃ k, probeNames names pre i fuel = some (pre ++ Nat.repr (i + k)) ∧
      (pre ++ Nat.repr (i + k)) ∉ names ∧
      ∀ j < k, (pre ++ Nat.repr (i + j)) ∈ names := by
  intro fuel
  induction fuel with
  | zero =>
      intro i h
      obtain ⟨k, hk, _⟩ := h
      omega
  | succ fuel ih =>
      intro i h
      obtain ⟨k, hk, hfree⟩ := h
      by_cases hmem : (pre ++ Nat.repr i) ∈ names
      · have hk0 : k ≠ 0 := by
          intro hk0
          rw [hk0, Nat.add_zero] at hfree
          exact hfree hmem
        obtain ⟨k', rfl⟩ : ∃ k', k = k' + 1 := ⟨k - 1, by omega⟩
        have hex : ∃ k'', k'' < fuel ∧
            (pre ++ Nat.repr ((i + 1) + k'')) ∉ names := by
          refine ⟨k', by omega, ?_⟩
          rw [show i + 1 + k' = i + (k' + 1) by omega]
          exact hfree
        obtain ⟨m, hm1, hm2, hm3⟩ := ih (i + 1) hex
        refine ⟨m + 1, ?_, ?_, ?_⟩
        · rw [probeNames]
          simp only [if_pos hmem]
          rw [show i + (m + 1) = (i + 1) + m by omega]
          exact hm1
        · rw [show i + (m + 1) = (i + 1) + m by omega]
          exact hm2
        · intro j hj
          cases j with
          | zero => simpa using hmem
          | succ j' =>
              rw [show i + (j' + 1) = (i + 1) + j' by omega]
              exact hm3 j' (by omega)
      · refine ⟨0, ?_, by simpa using hmem, by omega⟩
        rw [probeNames]
        simp only [if_neg hmem]
        simp

/-- C9: `get_unique_name(prefix)` probes `prefix0`, `prefix1`, … in order
and returns the first candidate not present among the names of any scope
(with an explicit scope, the first not present in that scope's table); the
returned name is never already in the table; and over existing names
`{"k0", "k1"}`, `get_unique_name("k")` returns `"k2"`. -/
theorem get_unique_name_first_free :
    (∀ (st : SymbolTable) (pre : String),
      ∃ i, st.get_unique_name pre none = some (pre ++ Nat.repr i) ∧
        (pre ++ Nat.repr i) ∉ st.get_all_names ∧
        ∀ j < i, (pre ++ Nat.repr j) ∈ st.get_all_names) ∧
    (∀ (st : SymbolTable) (pre : String) (sc : Scope),
      ∃ i, st.get_unique_name pre (some sc) = some (pre ++ Nat.repr i) ∧
        (pre ++ Nat.repr i) ∉ st.scope_names sc ∧
        ∀ j < i, (pre ++ Nat.repr j) ∈ st.scope_names sc) ∧
    (SymbolTable.get_unique_name
      ⟨[((Scope.base, "k0"),
          ⟨"k0", SymbolType.Parameter,
            ⟨1, ⟨⟨1, 1⟩, ⟨1, 3⟩⟩, "k0", none, none⟩, none, none, none, []⟩),
        ((Scope.base, "k1"),
          ⟨"k1", SymbolType.Parameter,
            ⟨2, ⟨⟨2, 1⟩, ⟨2, 3⟩⟩, "k1", none, none⟩, none, none, none, []⟩)],
        [], []⟩ "k" none = some "k2") := by
  refine ⟨?_, ?_, by decide⟩
  · intro st pre
    obtain ⟨i0, hi0, hfree⟩ := exists_free_index st.get_all_names pre
    obtain ⟨k, h1, h2, h3⟩ := probeNames_spec st.get_all_names pre
      (st.get_all_names.length + 1) 0 ⟨i0, by omega, by simpa using hfree⟩
    refine ⟨k, ?_, by simpa using h2, fun j hj => by simpa using h3 j hj⟩
    simpa [SymbolTable.get_unique_name] using h1
  · intro st pre sc
    obtain ⟨i0, hi0, hfree⟩ := exists_free_index (st.scope_names sc) pre
    obtain ⟨k, h1, h2, h3⟩ := probeNames_spec (st.scope_names sc) pre
      ((st.scope_names sc).length + 1) 0 ⟨i0, by omega, by simpa using hfree⟩
    refine ⟨k, ?_, by simpa using h2, fun j hj => by simpa using h3 j hj⟩
    simpa [SymbolTable.get_unique_name] using h1

/-! ## Claims C6 and C7: the syntax-issue pass -/

theorem recordSyntaxAux_eq (cs : List Tree) :
    ∀ (issues : List Issue) (lines : List Nat),
    recordSyntaxAux cs issues lines =
      issues ++ keepFirstPerLine (cs.filterMap issueForNode) lines := by
  induction cs with
  | nil => intro issues lines; simp [recordSyntaxAux, keepFirstPerLine]
  | cons c rest ih =>
      intro issues lines
      cases h : issueForNode c with
      | none => simp [recordSyntaxAux, h, List.filterMap_cons, ih]
      | some i =>
          by_cases hl : i.range.start.line ∈ lines
          · simp [recordSyntaxAux, h, hl, List.filterMap_cons,
              keepFirstPerLine, ih]
          · simp [recordSyntaxAux, h, hl, List.filterMap_cons,
              keepFirstPerLine, ih]

theorem keepFirstPerLine_not_mem :
    ∀ (l : List Issue) (lines : List Nat) (i : Issue),
    i ∈ keepFirstPerLine l lines → i.range.start.line ∉ lines := by
  intro l
  induction l with
  | nil => intro lines i h; simp [keepFirstPerLine] at h
  | cons a rest ih =>
      intro lines i h
      by_cases hl : a.range.start.line ∈ lines
      · simp only [keepFirstPerLine, if_pos hl] at h
        exact ih lines i h
      · simp only [keepFirstPerLine, if_neg hl] at h
        rcases List.mem_cons.mp h with h' | h'
        · subst h'; exact hl
        · have := ih _ i h'
          intro hmem
          exact this (List.mem_cons_of_mem _ hmem)

theorem keepFirstPerLine_pairwise :
    ∀ (l : List Issue) (lines : List Nat),
    (keepFirstPerLine l lines).Pairwise
      (fun a b => a.range.start.line ≠ b.range.start.line) := by
  intro l
  induction l with
  | nil => intro lines; simp [keepFirstPerLine]
  | cons a rest ih =>
      intro lines
      by_cases hl : a.range.start.line ∈ lines
      · simpa only [keepFirstPerLine, if_pos hl] using ih lines
      · simp only [keepFirstPerLine, if_neg hl]
        refine List.Pairwise.cons ?_ (ih _)
        intro b hb
        have := keepFirstPerLine_not_mem _ _ _ hb
        simp only [List.mem_cons, not_or] at this
        exact fun h => this.1 h.symm

/-- C6: the syntax-issue pass records at most one issue per source line,
keeping the first match in left-to-right order over the root's direct
children: the recorded list equals the first-per-line filter of the
per-node issues, and its start lines are pairwise distinct; a line holding
two non-whitespace `ErrorToken`s yields exactly one recorded
`UnexpectedToken` issue, at the first offending position. -/
theorem record_syntax_one_issue_per_line :
    (∀ children : List Tree,
      recordSyntaxIssues children =
        keepFirstPerLine (children.filterMap issueForNode) []) ∧
    (∀ children : List Tree,
      (recordSyntaxIssues children).Pairwise
        (fun a b => a.range.start.line ≠ b.range.start.line)) ∧
    (recordSyntaxIssues
        [Tree.leaf LeafKind.ErrorToken ⟨1, ⟨⟨1, 5⟩, ⟨1, 6⟩⟩, "?", none, none⟩,
         Tree.leaf LeafKind.ErrorToken
           ⟨2, ⟨⟨1, 9⟩, ⟨1, 10⟩⟩, "!", none, none⟩] =
      [Issue.UnexpectedToken ⟨⟨1, 5⟩, ⟨1, 6⟩⟩ "?"]) := by
  refine ⟨?_, ?_, ?_⟩
  · intro children
    simpa using recordSyntaxAux_eq children [] []
  · intro children
    rw [recordSyntaxIssues, recordSyntaxAux_eq children [] []]
    simpa using keepFirstPerLine_pairwise (children.filterMap issueForNode) []
  · decide

/-- C7: during the syntax pass, a direct `ErrorNode` child whose last
leaf has no `next` leaf produces exactly one `UnexpectedEOF` issue at that
leaf's range, while an `ErrorNode` whose last leaf does have a following
leaf produces no issue by itself; a whitespace-only `ErrorToken` produces
an unexpected-newline issue at its start position, and a non-whitespace
`ErrorToken` an unexpected-token issue spanning its range and carrying its
text. -/
theorem record_syntax_error_nodes :
    (∀ (r : SrcRange) (ch : List Tree) (d : LeafData),
      lastLeafChildren ch = some d → d.next = none →
      recordSyntaxIssues [Tree.trunk TrunkKind.ErrorNode r ch] =
        [Issue.UnexpectedEOF d.range]) ∧
    (∀ (r : SrcRange) (ch : List Tree) (d : LeafData) (j : Nat),
      lastLeafChildren ch = some d → d.next = some j →
      recordSyntaxIssues [Tree.trunk TrunkKind.ErrorNode r ch] = []) ∧
    (∀ d : LeafData, d.text.data.all Char.isWhitespace = true →
      recordSyntaxIssues [Tree.leaf LeafKind.ErrorToken d] =
        [Issue.UnexpectedNewline
          ⟨d.range.start, ⟨d.range.start.line + 1, 1⟩⟩]) ∧
    (∀ d : LeafData, d.text.data.all Char.isWhitespace = false →
      recordSyntaxIssues [Tree.leaf LeafKind.ErrorToken d] =
        [Issue.UnexpectedToken d.range d.text]) := by
  refine ⟨?_, ?_, ?_, ?_⟩
  · intro r ch d h1 h2
    simp [recordSyntaxIssues, recordSyntaxAux, issueForNode, h1, h2]
  · intro r ch d j h1 h2
    simp [recordSyntaxIssues, recordSyntaxAux, issueForNode, h1, h2]
  · intro d h
    simp [recordSyntaxIssues, recordSyntaxAux, issueForNode, h,
      unexpectedNewlineIssue]
  · intro d h
    simp [recordSyntaxIssues, recordSyntaxAux, issueForNode, h]

/-- C5 counterexample: on the tree built for
`model m; S1 -> S2; k1*S1; end`, looking up a position inside the token
`S1` does not return `ModelScope("m")` — it faults, because the descent
meets the `Model` node and `Model.get_name` is `assert False,
'Not implemented'` in the source. -/
theorem get_qname_at_position_model_fails :
    get_qname_at_position exModelRoot ⟨1, 10⟩ =
      Except.error "Model.get_name: Not implemented" := by
  rfl

mutual

theorem gqapNode_scope_base (t : Tree) (pos : SrcPosition) (scope : Scope)
    (k : LeafKind) (d : LeafData)
    (h : gqapNode t pos none none = Except.ok (some (scope, k, d))) :
    scope = Scope.base := by
  cases t with
  | missing => simp [gqapNode] at h
  | leaf k' d' =>
      simp [gqapNode] at h
      exact h.1.symm
  | trunk kind r ch =>
      by_cases h1 : kind = TrunkKind.Model
      · rw [gqapNode] at h
        simp [h1, modelGetName] at h
      · by_cases h2 : kind = TrunkKind.Function
        · rw [gqapNode] at h
          simp [h1, h2, functionGetName] at h
        · rw [gqapNode] at h
          simp only [if_neg h1, if_neg h2] at h
          exact gqapChildren_scope_base ch pos scope k d h

theorem gqapChildren_scope_base (cs : List Tree) (pos : SrcPosition)
    (scope : Scope) (k : LeafKind) (d : LeafData)
    (h : gqapChildren cs pos none none = Except.ok (some (scope, k, d))) :
    scope = Scope.base := by
  cases cs with
  | nil => simp [gqapChildren] at h
  | cons c rest =>
      cases c with
      | missing =>
          rw [gqapChildren] at h
          exact gqapChildren_scope_base rest pos scope k d h
      | leaf k' d' =>
          simp only [gqapChildren] at h
          by_cases hw : within_range pos (Tree.leaf k' d') = true
          · rw [if_pos hw] at h
            exact gqapNode_scope_base _ pos scope k d h
          · rw [if_neg hw] at h
            exact gqapChildren_scope_base rest pos scope k d h
      | trunk kind r ch =>
          simp only [gqapChildren] at h
          by_cases hw : within_range pos (Tree.trunk kind r ch) = true
          · rw [if_pos hw] at h
            exact gqapNode_scope_base _ pos scope k d h
          · rw [if_neg hw] at h
            exact gqapChildren_scope_base rest pos scope k d h

end

/-- C5 amended: whenever `get_qname_at_position` returns a found pair the
scope is `BaseScope` — a `ModelScope`/`FunctionScope` result is impossible
because descending into a `Model`/`Function` node faults on the
unimplemented `get_name`, as the concrete `model m; S1 -> S2; k1*S1; end`
tree shows; a position inside the token `S1` of the same reaction placed
at file level resolves to `BaseScope` with the `S1` `Name` leaf; and a
position not contained in any child's range at some level yields
"not found". -/
theorem get_qname_at_position_amended :
    (∀ (root : Tree) (pos : SrcPosition) (scope : Scope) (k : LeafKind)
      (d : LeafData),
      get_qname_at_position root pos = Except.ok (some (scope, k, d)) →
      scope = Scope.base) ∧
    (get_qname_at_position exModelRoot ⟨1, 10⟩ =
      Except.error "Model.get_name: Not implemented") ∧
    (get_qname_at_position exBaseRoot ⟨1, 10⟩ =
      Except.ok (some (Scope.base, LeafKind.Name, exS1))) ∧
    (get_qname_at_position exBaseRoot ⟨1, 40⟩ = Except.ok none) := by
  refine ⟨?_, by rfl, by rfl, by rfl⟩
  intro root pos scope k d h
  exact gqapNode_scope_base root pos scope k d h

/-- Concrete instance for `get_qname_at_position_amended`: the `S1`
lookup at file level is a found pair, and its scope is `BaseScope`. -/
theorem get_qname_at_position_amended_witness :
    (get_qname_at_position exBaseRoot ⟨1, 10⟩ =
      Except.ok (some (Scope.base, LeafKind.Name, exS1))) ∧
    Scope.base = Scope.base :=
  ⟨by rfl, get_qname_at_position_amended.1 exBaseRoot ⟨1, 10⟩ Scope.base
    LeafKind.Name exS1 (by rfl)⟩

/-- Concrete instances for `record_syntax_error_nodes`: an `ErrorNode`
ending the file, one not ending it, a newline `ErrorToken` and a `?`
`ErrorToken`. -/
theorem record_syntax_error_nodes_witness :
    (lastLeafChildren [Tree.leaf LeafKind.Operator
        ⟨5, ⟨⟨2, 3⟩, ⟨2, 4⟩⟩, "=", none, none⟩] =
      some ⟨5, ⟨⟨2, 3⟩, ⟨2, 4⟩⟩, "=", none, none⟩) ∧
    ((⟨5, ⟨⟨2, 3⟩, ⟨2, 4⟩⟩, "=", none, none⟩ : LeafData).next = none) ∧
    (recordSyntaxIssues [Tree.trunk TrunkKind.ErrorNode ⟨⟨2, 1⟩, ⟨2, 4⟩⟩
        [Tree.leaf LeafKind.Operator ⟨5, ⟨⟨2, 3⟩, ⟨2, 4⟩⟩, "=", none, none⟩]] =
      [Issue.UnexpectedEOF ⟨⟨2, 3⟩, ⟨2, 4⟩⟩]) ∧
    (recordSyntaxIssues [Tree.trunk TrunkKind.ErrorNode ⟨⟨2, 1⟩, ⟨2, 4⟩⟩
        [Tree.leaf LeafKind.Operator
          ⟨6, ⟨⟨2, 3⟩, ⟨2, 4⟩⟩, "=", none, some 9⟩]] = []) ∧
    (recordSyntaxIssues [Tree.leaf LeafKind.ErrorToken
        ⟨7, ⟨⟨3, 1⟩, ⟨4, 1⟩⟩, "\n", none, none⟩] =
      [Issue.UnexpectedNewline ⟨⟨3, 1⟩, ⟨4, 1⟩⟩]) ∧
    (recordSyntaxIssues [Tree.leaf LeafKind.ErrorToken
        ⟨8, ⟨⟨5, 1⟩, ⟨5, 2⟩⟩, "?", none, none⟩] =
      [Issue.UnexpectedToken ⟨⟨5, 1⟩, ⟨5, 2⟩⟩ "?"]) := by
  refine ⟨rfl, rfl, ?_, ?_, ?_, ?_⟩
  · exact record_syntax_error_nodes.1 ⟨⟨2, 1⟩, ⟨2, 4⟩⟩
      [Tree.leaf LeafKind.Operator ⟨5, ⟨⟨2, 3⟩, ⟨2, 4⟩⟩, "=", none, none⟩]
      ⟨5, ⟨⟨2, 3⟩, ⟨2, 4⟩⟩, "=", none, none⟩ rfl rfl
  · exact record_syntax_error_nodes.2.1 ⟨⟨2, 1⟩, ⟨2, 4⟩⟩
      [Tree.leaf LeafKind.Operator ⟨6, ⟨⟨2, 3⟩, ⟨2, 4⟩⟩, "=", none, some 9⟩]
      ⟨6, ⟨⟨2, 3⟩, ⟨2, 4⟩⟩, "=", none, some 9⟩ 9 rfl rfl
  · exact record_syntax_error_nodes.2.2.1
      ⟨7, ⟨⟨3, 1⟩, ⟨4, 1⟩⟩, "\n", none, none⟩ (by decide)
  · exact record_syntax_error_nodes.2.2.2
      ⟨8, ⟨⟨5, 1⟩, ⟨5, 2⟩⟩, "?", none, none⟩ (by decide)

end Stibium
